import Mathlib

/-!
# riemann-fs: path grammar, query translation and field resolution

A shallow embedding of `riemann-fs.go`.  Go strings are Lean strings (the length
in bytes of a string is its `utf8ByteSize`), a slice is a list, `uint32`/`uint64`
values are natural numbers.  A function that can hit a run-time panic (an index
out of range, an explicit `panic`) returns an `Outcome`; a function that talks to
the Riemann client returns a `Run`, which also records the filters handed to the
client, in order.  Calls to the logger are left out.
-/

namespace Riemann

/-! ## Run-time model -/

/-- Result of running Go code that may panic. -/
inductive Outcome (α : Type) where
  | ret (a : α)
  | panic (msg : String)
deriving DecidableEq, Repr

namespace Outcome

/-- Sequencing: a panic ends the computation. -/
def bind {α β : Type} (x : Outcome α) (f : α → Outcome β) : Outcome β :=
  match x with
  | ret a => f a
  | panic msg => panic msg

end Outcome

/-- Slice indexing `l[i]`: panics when `i` is out of range. -/
def idx {α : Type} (l : List α) (i : Nat) : Outcome α :=
  match l[i]? with
  | some a => .ret a
  | none => .panic "index out of range"

/-- Slice assignment `l[i] = v`: panics when `i` is out of range. -/
def setIdx {α : Type} (l : List α) (i : Nat) (v : α) : Outcome (List α) :=
  if i < l.length then .ret (l.set i v) else .panic "index out of range"

/-- A loop `for _, a := range as` whose body `step` updates the loop state. -/
def forRange {α σ : Type} (step : σ → α → Outcome σ) : List α → σ → Outcome σ
  | [], st => .ret st
  | a :: as, st => (step st a).bind (forRange step as)

/-- A computation that may query the Riemann client: its outcome together with
the filters it handed to the client, in the order they were sent. -/
structure Run (α : Type) where
  out : Outcome α
  sent : List String
deriving DecidableEq, Repr

namespace Run

/-- Sequencing: the filters of both parts are recorded; after a panic nothing
more is sent. -/
def bind {α β : Type} (x : Run α) (f : α → Run β) : Run β :=
  match x.out with
  | .ret a => ⟨(f a).out, x.sent ++ (f a).sent⟩
  | .panic msg => ⟨.panic msg, x.sent⟩

/-- Code that sends nothing. -/
def lift {α : Type} (x : Outcome α) : Run α := ⟨x, []⟩

end Run

/-! ## Library constants and functions the source imports -/

/-- Constant `fuse.S_IFDIR` (`syscall.S_IFDIR`). -/
def S_IFDIR : Nat := 0x4000

/-- Constant `fuse.S_IFREG` (`syscall.S_IFREG`). -/
def S_IFREG : Nat := 0x8000

/-- Constant `fuse.O_ANYWRITE`:
`O_WRONLY | O_RDWR | O_APPEND | O_CREATE | O_TRUNC` with the Linux values. -/
def O_ANYWRITE : Nat := 0x1 ||| 0x2 ||| 0x400 ||| 0x40 ||| 0x200

/-- Values of `fuse.Status` the source returns. -/
inductive Status where
  | OK
  | ENOENT
  | EPERM
deriving DecidableEq, Repr

/-- Type `fuse.DirEntry`. -/
structure DirEntry where
  Name : String
  Mode : Nat
deriving DecidableEq, Repr

/-- Fields of `fuse.Attr` the source sets; the others stay zero. -/
structure Attr where
  Mode : Nat
  Size : Nat
deriving DecidableEq, Repr

/-- Constant `os.PathSeparator` (Unix). -/
def PathSeparator : Char := '/'

/-- Splitting of a character sequence at every occurrence of `sep`. -/
def splitChars (sep : Char) : List Char → List (List Char)
  | [] => [[]]
  | c :: cs =>
    if c = sep then [] :: splitChars sep cs
    else
      match splitChars sep cs with
      | [] => [[c]]
      | seg :: rest => (c :: seg) :: rest

/-- Function `strings.Split(s, string(sep))` for a one-character separator. -/
def Split (s : String) (sep : Char) : List String :=
  (splitChars sep s.data).map String.mk

/-- Function `strings.Join(elems, sep)`. -/
def Join (elems : List String) (sep : String) : String :=
  sep.intercalate elems

/-- Function `fmt.Sprintf("%d", i)` for an integer. -/
def sprintfD (i : Int) : String :=
  match i with
  | Int.ofNat m => Nat.repr m
  | Int.negSucc m => "-" ++ Nat.repr (m + 1)

/-- Go leaves the order in which `range` visits the keys of a map unspecified:
an iteration order gives, for the keys of a map, some arrangement of them. -/
structure MapOrder where
  iter : List String → List String
  perm : ∀ keys, (iter keys).Perm keys

/-- A `map[string]string`: key/value pairs, no key twice. -/
structure StringMap where
  entries : List (String × String)
  nodupKeys : (entries.map Prod.fst).Nodup

namespace StringMap

/-- The keys of the map. -/
def keys (m : StringMap) : List String := m.entries.map Prod.fst

/-- Map access `m[k]` in its two-result form. -/
def get? (m : StringMap) (k : String) : Option String := m.entries.lookup k

end StringMap

/-- Type `raidman.Event`; `M` is the type of `Metric` (an `interface{}`) and
`T` that of `Ttl` (a `float32`). -/
structure Event (M T : Type) where
  Ttl : T
  Time : Int
  Tags : List String
  Host : String
  State : String
  Service : String
  Metric : M
  Description : String
  Attributes : StringMap

/-- Errors `valueForAttribute` can return. -/
inductive FieldError where
  | fieldNotFound
  | marshal (msg : String)
deriving DecidableEq, Repr

/-- What the source takes from its libraries and run time: `fmt.Sprintf("%f", _)`
on the metric and on the ttl, `json.Marshal` on an event, and the order in which
`range` visits a map. -/
structure Runtime (M T : Type) where
  sprintfMetric : M → String
  sprintfTtl : T → String
  jsonMarshal : Event M T → Except String String
  rangeOrder : MapOrder

/-- Type `RiemannFS`: the client, seen through its method `Query`, which
answers a filter with events or with an error. -/
structure RiemannFS (M T : Type) where
  RiemannClient : String → Except String (List (Event M T))

variable {M T : Type}

/-! ## The source -/

/-- Variable `riemann_fields`. -/
def riemann_fields : List String :=
  ["Service", "Host", "Metric", "Description", "State", "Time", "Tags", "Ttl"]

/-- One step of a loop that writes `mk field` at `files[offset]` and advances
`offset`. -/
def fillStep (mk : String → DirEntry) (st : List DirEntry × Nat) (field : String) :
    Outcome (List DirEntry × Nat) :=
  (setIdx st.1 st.2 (mk field)).bind fun files => .ret (files, st.2 + 1)

/-- A `map[string]bool` used as a set of strings: its keys. -/
abbrev StringSet := List String

/-- Assignment `stringSet[k] = true`. -/
def StringSet.add (stringSet : StringSet) (k : String) : StringSet :=
  if k ∈ stringSet then stringSet else stringSet ++ [k]

/-- Function `stringSetToDirEntries`. -/
def stringSetToDirEntries (o : MapOrder) (stringSet : StringSet) : Outcome (List DirEntry) :=
  let files : List DirEntry := List.replicate stringSet.length ⟨"", 0⟩
  (forRange (fillStep fun host => ⟨host, S_IFDIR⟩) (o.iter stringSet) (files, 0)).bind
    fun st => .ret st.1

/-- Function `eventToDirEntries`. -/
def eventToDirEntries (o : MapOrder) (event : Event M T) : Outcome (List DirEntry) :=
  let files : List DirEntry := List.replicate (9 + event.Attributes.keys.length) ⟨"", 0⟩
  (forRange
      (fun (st : List DirEntry × Nat) (p : Nat × String) =>
        (setIdx st.1 p.1 ⟨p.2, S_IFREG⟩).bind fun files => .ret (files, st.2 + 1))
      riemann_fields.enum (files, 0)).bind fun st =>
  (forRange (fillStep fun field => ⟨field, S_IFREG⟩) (o.iter event.Attributes.keys) st).bind
    fun st =>
  setIdx st.1 st.2 ⟨".json", S_IFREG⟩

/-- Function `InArray`. -/
def InArray (ary : List String) (value : String) : Bool :=
  match ary with
  | [] => false
  | v :: rest => if v = value then true else InArray rest value

/-- Method `queryRiemann`. -/
def queryRiemann (fs : RiemannFS M T) (query : String) : Run (List (Event M T)) :=
  match fs.RiemannClient query with
  | .error _ => ⟨.ret [], [query]⟩
  | .ok events => ⟨.ret events, [query]⟩

/-- Method `fieldForEventFromQuery`. -/
def fieldForEventFromQuery (fs : RiemannFS M T) (query : String)
    (lambda : Event M T → String) : Run StringSet :=
  (queryRiemann fs query).bind fun events =>
  ⟨.ret (events.foldl (fun fields event => fields.add (lambda event)) []), []⟩

/-- Method `nodeForPath`. -/
def nodeForPath (path : String) : Outcome (Nat × List String) :=
  let aryPath := Split path PathSeparator
  (idx aryPath 0).bind fun first =>
  if first = ".query" then
    if aryPath.length ≤ 4 then .ret (S_IFDIR, aryPath)
    else if aryPath.length = 5 then .ret (S_IFREG, aryPath)
    else .ret (0, aryPath)
  else if aryPath.length ≤ 2 then .ret (S_IFDIR, aryPath)
  else if aryPath.length = 3 then .ret (S_IFREG, aryPath)
  else .ret (0, aryPath)

/-- Method `queryForPath`. -/
def queryForPath (aryPath : List String) : Outcome String :=
  (idx aryPath 0).bind fun first =>
  if first = ".query" then
    match aryPath.length with
    | 2 => idx aryPath 1
    | 3 =>
      (idx aryPath 1).bind fun a1 =>
      (idx aryPath 2).bind fun a2 =>
      .ret ("(" ++ a1 ++ ") and host = \"" ++ a2 ++ "\"")
    | 4 | 5 =>
      (idx aryPath 1).bind fun a1 =>
      (idx aryPath 2).bind fun a2 =>
      (idx aryPath 3).bind fun a3 =>
      .ret ("(" ++ a1 ++ ") and host = \"" ++ a2 ++ "\" and service = \"" ++ a3 ++ "\"")
    | _ => .ret ""
  else if aryPath.length ≥ 2 then
    (idx aryPath 0).bind fun a0 =>
    (idx aryPath 1).bind fun a1 =>
    .ret ("host = \"" ++ a0 ++ "\" and service = \"" ++ a1 ++ "\"")
  else .ret ""

/-- Method `getEventsForPath`. -/
def getEventsForPath (fs : RiemannFS M T) (aryPath : List String) : Run (List (Event M T)) :=
  (Run.lift (queryForPath aryPath)).bind fun query =>
  if query ≠ "" then queryRiemann fs query else ⟨.ret [], []⟩

/-- Function `valueForAttribute`.  The Go function returns a value and an
error; the value is `nil` exactly when the error is set, so the pair is an
`Except`. -/
def valueForAttribute (rt : Runtime M T) (event : Event M T) (attr : String) :
    Except FieldError String :=
  if attr = ".json" then
    match rt.jsonMarshal event with
    | .ok value => .ok value
    | .error msg => .error (.marshal msg)
  else
    match event.Attributes.get? attr with
    | some _value => .ok _value
    | none =>
      if !InArray riemann_fields attr then .error .fieldNotFound
      else
        let sValue : String :=
          if attr = "Tags" then Join event.Tags ", "
          else if attr = "Time" then sprintfD event.Time
          else if attr = "Ttl" then rt.sprintfTtl event.Ttl
          else if attr = "Metric" then rt.sprintfMetric event.Metric
          else if attr = "Host" then event.Host
          else if attr = "Service" then event.Service
          else if attr = "Description" then event.Description
          else if attr = "State" then event.State
          else ""
        .ok sValue

/-- Method `OpenDir`. -/
def OpenDir (rt : Runtime M T) (fs : RiemannFS M T) (name : String) :
    Run (List DirEntry × Status) :=
  let names := Split name PathSeparator
  if name = "" then
    (fieldForEventFromQuery fs "true" fun e => e.Host).bind fun stringSet =>
    (Run.lift (stringSetToDirEntries rt.rangeOrder stringSet)).bind fun files =>
    ⟨.ret (files ++ [⟨".query", S_IFDIR⟩], .OK), []⟩
  else
    (Run.lift (idx names 0)).bind fun first =>
    if first = ".query" then
      match names.length with
      | 1 => ⟨.ret ([], .OK), []⟩
      | 2 | 3 =>
        (Run.lift (idx names 1)).bind fun filter =>
        (fieldForEventFromQuery fs filter
            fun e => if names.length = 2 then e.Host else e.Service).bind fun stringSet =>
        (Run.lift (stringSetToDirEntries rt.rangeOrder stringSet)).bind fun files =>
        ⟨.ret (files, .OK), []⟩
      | 4 =>
        (getEventsForPath fs names).bind fun events =>
        (Run.lift (idx events 0)).bind fun event =>
        (Run.lift (eventToDirEntries rt.rangeOrder event)).bind fun files =>
        ⟨.ret (files, .OK), []⟩
      | _ => ⟨.ret ([], .OK), []⟩
    else
      match names.length with
      | 1 =>
        (fieldForEventFromQuery fs ("host = \"" ++ name ++ "\"")
            fun e => e.Service).bind fun stringSet =>
        (Run.lift (stringSetToDirEntries rt.rangeOrder stringSet)).bind fun files =>
        ⟨.ret (files, .OK), []⟩
      | 2 =>
        (getEventsForPath fs names).bind fun events =>
        if events.length = 0 then ⟨.ret ([], .OK), []⟩
        else if events.length > 1 then
          ⟨.panic "Got more then 1 event for (host, service) query, this should never happen", []⟩
        else
          (Run.lift (idx events 0)).bind fun event =>
          (Run.lift (eventToDirEntries rt.rangeOrder event)).bind fun files =>
          ⟨.ret (files, .OK), []⟩
      | _ => ⟨.ret ([], .OK), []⟩

/-- Method `GetAttr`. -/
def GetAttr (rt : Runtime M T) (fs : RiemannFS M T) (name : String) :
    Run (Option Attr × Status) :=
  (Run.lift (nodeForPath name)).bind fun node =>
  let node_type := node.1
  let aryPath := node.2
  if node_type = S_IFDIR then ⟨.ret (some ⟨node_type ||| 0o755, 0⟩, .OK), []⟩
  else if node_type = S_IFREG then
    (getEventsForPath fs aryPath).bind fun events =>
    if events.length = 1 then
      (Run.lift (idx events 0)).bind fun event =>
      (Run.lift (idx aryPath (aryPath.length - 1))).bind fun attr =>
      let size : Nat :=
        match valueForAttribute rt event attr with
        | .ok value => value.utf8ByteSize
        | .error _ => 0
      ⟨.ret (some ⟨node_type ||| 0o644, size⟩, .OK), []⟩
    else ⟨.ret (none, .ENOENT), []⟩
  else ⟨.ret (none, .ENOENT), []⟩

/-- Method `Open`; a returned file is given by its content, the data of the
read-only data file. -/
def Open (rt : Runtime M T) (fs : RiemannFS M T) (path : String) (flags : Nat) :
    Run (Option String × Status) :=
  (Run.lift (nodeForPath path)).bind fun node =>
  let node_type := node.1
  let aryPath := node.2
  if node_type = S_IFREG then
    if flags &&& O_ANYWRITE ≠ 0 then ⟨.ret (none, .EPERM), []⟩
    else
      (getEventsForPath fs aryPath).bind fun events =>
      if events.length > 1 then
        ⟨.panic "Got more then 1 event for query, this should never happen", []⟩
      else if events.length = 0 then ⟨.ret (none, .ENOENT), []⟩
      else
        (Run.lift (idx events 0)).bind fun event =>
        (Run.lift (idx aryPath (aryPath.length - 1))).bind fun attr =>
        match valueForAttribute rt event attr with
        | .error _ => ⟨.ret (none, .ENOENT), []⟩
        | .ok value => ⟨.ret (some value, .OK), []⟩
  else ⟨.ret (none, .ENOENT), []⟩

/-! ## Helpers for statements and sample data -/

/-- Events answered for a filter; none when the query fails. -/
def answered (fs : RiemannFS M T) (query : String) : List (Event M T) :=
  match fs.RiemannClient query with
  | .ok events => events
  | .error _ => []

/-- Sample event of the scenario: host `web1`, service `cpu`. -/
def sampleEvent : Event Nat Nat :=
  { Ttl := 0, Time := 100, Tags := ["prod"], Host := "web1", State := "", Service := "cpu",
    Metric := 1, Description := "", Attributes := ⟨[("rack", "r1")], by decide⟩ }

/-- Sample run time: whole-number metrics, map keys visited in reverse. -/
def sampleRuntime : Runtime Nat Nat :=
  { sprintfMetric := fun m => Nat.repr m ++ ".000000"
    sprintfTtl := fun t => Nat.repr t ++ ".000000"
    jsonMarshal := fun e => .ok ("\x7b\"host\":\"" ++ e.Host ++ "\"\x7d")
    rangeOrder := ⟨List.reverse, List.reverse_perm⟩ }

/-- Sample client: a store holding `sampleEvent` only, answering every filter
with it. -/
def sampleFS : RiemannFS Nat Nat := ⟨fun _ => .ok [sampleEvent]⟩

/-- Sample event whose attributes reuse the names `Host` and `.json`. -/
def shadowEvent : Event Nat Nat :=
  { Ttl := 0, Time := 42, Tags := ["a", "b"], Host := "web1", State := "ok", Service := "cpu",
    Metric := 1, Description := "",
    Attributes := ⟨[("Host", "attr-host"), (".json", "attr-json")], by decide⟩ }

/-- Sample client whose every query fails. -/
def failingFS : RiemannFS Nat Nat := ⟨fun _ => .error "connection refused"⟩

/-- Sample event of another host: host `web2`, service `mem`. -/
def otherEvent : Event Nat Nat :=
  { Ttl := 0, Time := 101, Tags := [], Host := "web2", State := "", Service := "mem",
    Metric := 2, Description := "", Attributes := ⟨[], by decide⟩ }

/-- Sample event for host `web1`, service `cpu` again, older than `sampleEvent`. -/
def staleEvent : Event Nat Nat :=
  { Ttl := 0, Time := 50, Tags := [], Host := "web1", State := "", Service := "cpu",
    Metric := 3, Description := "", Attributes := ⟨[("old", "yes")], by decide⟩ }

/-- Sample client: a store holding `sampleEvent` and `otherEvent`; the filter
`(true) and host = "web1"` selects the first, every other filter both. -/
def twoHostFS : RiemannFS Nat Nat :=
  ⟨fun q => if q = "(true) and host = \"web1\"" then .ok [sampleEvent]
    else .ok [sampleEvent, otherEvent]⟩

/-- Sample client answering every filter with no event. -/
def emptyFS : RiemannFS Nat Nat := ⟨fun _ => .ok []⟩

/-- Sample client answering every filter with two events for `web1`, `cpu`. -/
def duplicateFS : RiemannFS Nat Nat := ⟨fun _ => .ok [sampleEvent, staleEvent]⟩

/-- Sample client of a store holding `shadowEvent` only. -/
def shadowFS : RiemannFS Nat Nat := ⟨fun _ => .ok [shadowEvent]⟩

/-- Sample event whose host is named `.query`. -/
def queryHostEvent : Event Nat Nat :=
  { Ttl := 0, Time := 7, Tags := [], Host := ".query", State := "", Service := "cpu",
    Metric := 0, Description := "", Attributes := ⟨[], by decide⟩ }

/-- Sample client of a store holding `queryHostEvent` only. -/
def queryHostFS : RiemannFS Nat Nat := ⟨fun _ => .ok [queryHostEvent]⟩

/-- Value of a decimal digit. -/
def digitValue? (c : Char) : Option Nat :=
  if c.isDigit then some (c.toNat - '0'.toNat) else none

/-- One step of reading a numeral: the value so far, then one more digit. -/
def readDigit (acc : Option Nat) (c : Char) : Option Nat :=
  match acc, digitValue? c with
  | some n, some d => some (n * 10 + d)
  | _, _ => none

/-- Reading of an unsigned decimal numeral; the empty text and a text with a
character that is not a digit are not numerals. -/
def parseNat? (cs : List Char) : Option Nat :=
  match cs with
  | [] => none
  | _ :: _ => cs.foldl readDigit (some 0)

/-- Reading of a decimal integer: digits, with `-` in front for a negative
value. -/
def parseInt? (s : String) : Option Int :=
  match s.data with
  | [] => none
  | c :: cs =>
    if c = '-' then (parseNat? cs).map fun n => -(n : Int)
    else (parseNat? (c :: cs)).map fun n => (n : Int)

/-- Sample client of a store holding `sampleEvent` and `shadowEvent`: the filter
of the path `web1/cpu` selects the first, every other filter the second. -/
def mixedFS : RiemannFS Nat Nat :=
  ⟨fun q => if q = "host = \"web1\" and service = \"cpu\"" then .ok [sampleEvent]
    else .ok [shadowEvent]⟩

/-! ## Basic facts about the run-time model -/

@[simp] theorem Outcome.bind_ret {α β : Type} (a : α) (f : α → Outcome β) :
    (Outcome.ret a).bind f = f a := rfl

@[simp] theorem Outcome.bind_panic {α β : Type} (msg : String) (f : α → Outcome β) :
    (Outcome.panic msg : Outcome α).bind f = Outcome.panic msg := rfl

@[simp] theorem Run.bind_mk_ret {α β : Type} (a : α) (s : List String) (f : α → Run β) :
    (Run.mk (Outcome.ret a) s).bind f = ⟨(f a).out, s ++ (f a).sent⟩ := rfl

@[simp] theorem Run.bind_mk_panic {α β : Type} (msg : String) (s : List String)
    (f : α → Run β) :
    (Run.mk (Outcome.panic msg : Outcome α) s).bind f = ⟨Outcome.panic msg, s⟩ := rfl

@[simp] theorem Run.lift_ret {α : Type} (a : α) :
    Run.lift (Outcome.ret a) = ⟨Outcome.ret a, []⟩ := rfl

@[simp] theorem idx_cons_zero {α : Type} (a : α) (l : List α) : idx (a :: l) 0 = .ret a := by
  simp [idx]

@[simp] theorem idx_cons_succ {α : Type} (a : α) (l : List α) (i : Nat) :
    idx (a :: l) (i + 1) = idx l i := by
  simp [idx]

theorem idx_of_lt {α : Type} (l : List α) (i : Nat) (h : i < l.length) :
    idx l i = .ret (l.get ⟨i, h⟩) := by
  simp [idx, List.getElem?_eq_getElem h]

/-! ## Facts about `Split` -/

theorem splitChars_ne_nil (sep : Char) (l : List Char) : splitChars sep l ≠ [] := by
  induction l with
  | nil => simp [splitChars]
  | cons c cs ih =>
    unfold splitChars
    split_ifs
    · simp
    · cases h : splitChars sep cs <;> simp

theorem splitChars_length (sep : Char) (l : List Char) :
    (splitChars sep l).length = l.count sep + 1 := by
  induction l with
  | nil => simp [splitChars]
  | cons c cs ih =>
    unfold splitChars
    split_ifs with hc
    · subst hc; simp [ih]
    · have hne := splitChars_ne_nil sep cs
      cases h : splitChars sep cs with
      | nil => exact absurd h hne
      | cons seg rest =>
        rw [h] at ih
        simp only [List.length_cons] at ih ⊢
        rw [List.count_cons_of_ne (Ne.symm hc)]
        exact ih

theorem splitChars_of_not_mem (sep : Char) (seg : List Char) (h : sep ∉ seg) :
    splitChars sep seg = [seg] := by
  induction seg with
  | nil => simp [splitChars]
  | cons c cs ih =>
    have hc : c ≠ sep := fun e => h (e ▸ List.mem_cons_self _ _)
    have hcs : sep ∉ cs := fun e => h (List.mem_cons_of_mem _ e)
    simp [splitChars, hc, ih hcs]

theorem splitChars_append_sep (sep : Char) (seg l : List Char) (h : sep ∉ seg) :
    splitChars sep (seg ++ sep :: l) = seg :: splitChars sep l := by
  induction seg with
  | nil => simp [splitChars]
  | cons c cs ih =>
    have hc : c ≠ sep := fun e => h (e ▸ List.mem_cons_self _ _)
    have hcs : sep ∉ cs := fun e => h (List.mem_cons_of_mem _ e)
    simp [splitChars, hc, ih hcs]

/-- Splitting undoes joining with the separator. -/
theorem splitChars_intercalate (sep : Char) (segs : List (List Char)) (hne : segs ≠ [])
    (hsep : ∀ seg ∈ segs, sep ∉ seg) :
    splitChars sep ([sep].intercalate segs) = segs := by
  induction segs with
  | nil => exact absurd rfl hne
  | cons seg rest ih =>
    have hseg : sep ∉ seg := hsep seg (List.mem_cons_self _ _)
    cases rest with
    | nil => simpa [List.intercalate, List.intersperse] using splitChars_of_not_mem sep seg hseg
    | cons seg2 rest2 =>
      have ih2 := ih (by simp) (fun s hs => hsep s (List.mem_cons_of_mem _ hs))
      have hjoin : [sep].intercalate (seg :: seg2 :: rest2)
          = seg ++ sep :: [sep].intercalate (seg2 :: rest2) := by
        simp [List.intercalate, List.intersperse]
      rw [hjoin, splitChars_append_sep sep seg _ hseg, ih2]

theorem Split_ne_nil (s : String) (sep : Char) : Split s sep ≠ [] := by
  simp [Split, splitChars_ne_nil]

theorem Split_length (s : String) (sep : Char) :
    (Split s sep).length = s.data.count sep + 1 := by
  simp [Split, splitChars_length]

/-! ## Node classification -/

/-- What `nodeForPath` returns, by the first segment and the number of
segments. -/
theorem nodeForPath_eq (path : String) (first : String) (rest : List String)
    (h : Split path PathSeparator = first :: rest) :
    nodeForPath path = .ret
      (if first = ".query" then
        (if rest.length + 1 ≤ 4 then S_IFDIR else if rest.length + 1 = 5 then S_IFREG else 0)
      else if rest.length + 1 ≤ 2 then S_IFDIR
      else if rest.length + 1 = 3 then S_IFREG else 0, first :: rest) := by
  simp only [nodeForPath, h, idx_cons_zero, Outcome.bind_ret, List.length_cons]
  split_ifs <;> rfl

/-- C1: for every path, with `segs` its segments after splitting on the path
separator (one more than the separators in the path), `nodeForPath` returns
`segs` and a node type such that: when the first
segment is `.query`, the type is Directory for 1 to 4 segments, File for exactly
5 and 0 (NotFound) for 6 or more; otherwise it is Directory for the empty path
and for 1 or 2 segments, File for exactly 3 and 0 for 4 or more.  `GetAttr`
returns NotFound, without any query, whenever the type is 0. -/
theorem nodeForPath_classifies (rt : Runtime M T) (fs : RiemannFS M T) (path : String) :
    ∃ (segs : List String) (nodeType : Nat),
      Split path PathSeparator = segs ∧
      nodeForPath path = .ret (nodeType, segs) ∧
      segs.length = path.data.count PathSeparator + 1 ∧
      (segs.head? = some ".query" →
        (segs.length ≤ 4 → nodeType = S_IFDIR) ∧
        (segs.length = 5 → nodeType = S_IFREG) ∧
        (6 ≤ segs.length → nodeType = 0)) ∧
      (segs.head? ≠ some ".query" →
        (path = "" → nodeType = S_IFDIR) ∧
        (segs.length ≤ 2 → nodeType = S_IFDIR) ∧
        (segs.length = 3 → nodeType = S_IFREG) ∧
        (4 ≤ segs.length → nodeType = 0)) ∧
      (nodeType = 0 → GetAttr rt fs path = ⟨.ret (none, .ENOENT), []⟩) := by
  obtain ⟨first, rest, h⟩ := List.exists_cons_of_ne_nil (Split_ne_nil path PathSeparator)
  have hnode := nodeForPath_eq path first rest h
  refine ⟨first :: rest, _, h, hnode, by rw [← h, Split_length], ?_, ?_, ?_⟩
  · intro hq
    have hq : first = ".query" := by simpa using hq
    simp only [hq, if_true, List.length_cons]
    refine ⟨fun h4 => by simp [h4], fun h5 => ?_, fun h6 => ?_⟩
    · have : ¬ rest.length + 1 ≤ 4 := by omega
      simp [this, h5]
    · have h4 : ¬ rest.length + 1 ≤ 4 := by omega
      have h5 : ¬ rest.length + 1 = 5 := by omega
      simp [h4, h5]
  · intro hq
    have hq : first ≠ ".query" := by simpa using hq
    simp only [hq, if_false, List.length_cons]
    refine ⟨fun he => ?_, fun h2 => by simp [h2], fun h3 => ?_, fun h4 => ?_⟩
    · subst he
      have hr : rest = [] := by
        have : Split "" PathSeparator = [""] := by decide
        rw [this] at h
        simp at h
        exact h.2
      simp [hr]
    · have : ¬ rest.length + 1 ≤ 2 := by omega
      simp [this, h3]
    · have h2 : ¬ rest.length + 1 ≤ 2 := by omega
      have h3 : ¬ rest.length + 1 = 3 := by omega
      simp [h2, h3]
  · intro h0
    simp only [GetAttr, hnode, Run.lift_ret, Run.bind_mk_ret, h0]
    simp [S_IFDIR, S_IFREG]

/-! ## Query translation -/

/-- C2, as stated, fails: with host segment `.query` the two-segment path is read
as an advanced-namespace path and its second segment is returned verbatim. -/
theorem queryForPath_plain_not_all_hosts :
    ¬ ∀ h s : String,
      queryForPath [h, s] = .ret ("host = \"" ++ h ++ "\" and service = \"" ++ s ++ "\"") := by
  intro hall
  have h1 := hall ".query" "s"
  revert h1
  decide

/-- C2, amended: for all strings `f`, `h`, `s`, `field`, `queryForPath` gives `f`
verbatim on `[.query, f]`, `(f) and host = "h"` on `[.query, f, h]`,
`(f) and host = "h" and service = "s"` on `[.query, f, h, s]` and on
`[.query, f, h, s, field]`, and the empty string on `[.query]`, for which
`getEventsForPath` sends no query; and when `h` is not `.query`, it gives
`host = "h" and service = "s"` on `[h, s]` and on `[h, s, field]`, and the filter
for `[.query, f, h, s]` is the filter for `[h, s]` prefixed by `(f) and `. -/
theorem queryForPath_table (fs : RiemannFS M T) (f h s field : String) :
    queryForPath [".query", f] = .ret f ∧
    queryForPath [".query", f, h] = .ret ("(" ++ f ++ ") and host = \"" ++ h ++ "\"") ∧
    queryForPath [".query", f, h, s]
      = .ret ("(" ++ f ++ ") and host = \"" ++ h ++ "\" and service = \"" ++ s ++ "\"") ∧
    queryForPath [".query", f, h, s, field]
      = .ret ("(" ++ f ++ ") and host = \"" ++ h ++ "\" and service = \"" ++ s ++ "\"") ∧
    queryForPath [".query"] = .ret "" ∧
    getEventsForPath fs [".query"] = ⟨.ret [], []⟩ ∧
    (h ≠ ".query" →
      queryForPath [h, s]
        = .ret ("host = \"" ++ h ++ "\" and service = \"" ++ s ++ "\"") ∧
      queryForPath [h, s, field]
        = .ret ("host = \"" ++ h ++ "\" and service = \"" ++ s ++ "\"") ∧
      ∃ q : String, queryForPath [h, s] = .ret q ∧
        queryForPath [".query", f, h, s] = .ret ("(" ++ f ++ ") and " ++ q)) := by
  have hadv4 : queryForPath [".query", f, h, s]
      = .ret ("(" ++ f ++ ") and host = \"" ++ h ++ "\" and service = \"" ++ s ++ "\"") := by
    simp [queryForPath]
  refine ⟨?_, ?_, hadv4, ?_, ?_, ?_, ?_⟩
  · simp [queryForPath]
  · simp [queryForPath]
  · simp [queryForPath]
  · simp [queryForPath]
  · simp [getEventsForPath, queryForPath]
  · intro hplain
    have hplain2 : queryForPath [h, s]
        = .ret ("host = \"" ++ h ++ "\" and service = \"" ++ s ++ "\"") := by
      simp [queryForPath, hplain]
    refine ⟨hplain2, ?_, _, hplain2, ?_⟩
    · simp [queryForPath, hplain]
    · rw [hadv4]
      have hlit : ") and host = \"" = ") and " ++ "host = \"" := by decide
      rw [hlit]
      simp only [String.append_assoc]

/-- The table of C2 at host `web1`, service `cpu`, filter `true`, and its
advanced rows at a host named `.query`. -/
theorem queryForPath_table_witness :
    "web1" ≠ ".query" ∧
    queryForPath ["web1", "cpu"] = .ret "host = \"web1\" and service = \"cpu\"" ∧
    queryForPath ["web1", "cpu", "Time"] = .ret "host = \"web1\" and service = \"cpu\"" ∧
    queryForPath [".query", "true", "web1", "cpu"]
      = .ret "(true) and host = \"web1\" and service = \"cpu\"" ∧
    queryForPath [".query", "true", ".query"] = .ret "(true) and host = \".query\"" ∧
    queryForPath [".query", "true", ".query", "cpu"]
      = .ret "(true) and host = \".query\" and service = \"cpu\"" :=
  ⟨by decide,
   ((queryForPath_table sampleFS "true" "web1" "cpu" "Time").2.2.2.2.2.2 (by decide)).1,
   ((queryForPath_table sampleFS "true" "web1" "cpu" "Time").2.2.2.2.2.2 (by decide)).2.1,
   (queryForPath_table sampleFS "true" "web1" "cpu" "Time").2.2.1,
   (queryForPath_table sampleFS "true" ".query" "cpu" "Time").2.1,
   (queryForPath_table sampleFS "true" ".query" "cpu" "Time").2.2.1⟩

/-! ## The loops that fill a listing -/

theorem setIdx_append_cons {α : Type} (pre : List α) (m v : α) (tl : List α) :
    setIdx (pre ++ m :: tl) pre.length v = .ret (pre ++ v :: tl) := by
  induction pre with
  | nil => simp [setIdx]
  | cons a pre ih =>
    simp only [setIdx, List.cons_append, List.length_cons, List.set_cons_succ] at ih ⊢
    split_ifs at ih ⊢ with h1 h2
    · simp
    · simp at h1

theorem forRange_fillStep (mk : String → DirEntry) (xs : List String) :
    ∀ (pre mid post : List DirEntry), mid.length = xs.length →
      forRange (fillStep mk) xs (pre ++ mid ++ post, pre.length)
        = .ret (pre ++ xs.map mk ++ post, pre.length + xs.length) := by
  induction xs with
  | nil =>
    intro pre mid post h
    have : mid = [] := List.length_eq_zero.mp h
    simp [forRange, this]
  | cons x xs ih =>
    intro pre mid post h
    cases mid with
    | nil => simp at h
    | cons m mid =>
      have h2 : mid.length = xs.length := by simpa using h
      have hstep : fillStep mk (pre ++ m :: mid ++ post, pre.length) x
          = .ret ((pre ++ [mk x]) ++ mid ++ post, (pre ++ [mk x]).length) := by
        simp only [fillStep, List.append_assoc, List.cons_append, setIdx_append_cons]
        simp
      rw [forRange, hstep, Outcome.bind_ret, ih (pre ++ [mk x]) mid post h2]
      simp only [Outcome.ret.injEq, Prod.mk.injEq, List.append_assoc, List.cons_append,
        List.nil_append, List.map_cons, true_and, List.length_append, List.length_cons,
        List.length_nil]
      omega

theorem forRange_enumFrom (mk : String → DirEntry) (xs : List String) :
    ∀ (pre mid post : List DirEntry) (offset : Nat), mid.length = xs.length →
      forRange
        (fun (st : List DirEntry × Nat) (p : Nat × String) =>
          (setIdx st.1 p.1 (mk p.2)).bind fun files => .ret (files, st.2 + 1))
        (xs.enumFrom pre.length) (pre ++ mid ++ post, offset)
        = .ret (pre ++ xs.map mk ++ post, offset + xs.length) := by
  induction xs with
  | nil =>
    intro pre mid post offset h
    have : mid = [] := List.length_eq_zero.mp h
    simp [forRange, this]
  | cons x xs ih =>
    intro pre mid post offset h
    cases mid with
    | nil => simp at h
    | cons m mid =>
      have h2 : mid.length = xs.length := by simpa using h
      have hlen : pre.length + 1 = (pre ++ [mk x]).length := by simp
      simp only [List.enumFrom_cons, forRange, List.append_assoc, List.cons_append,
        setIdx_append_cons, Outcome.bind_ret]
      rw [hlen]
      have := ih (pre ++ [mk x]) mid post (offset + 1) h2
      simp only [List.append_assoc, List.cons_append, List.nil_append,
        List.singleton_append] at this
      rw [this]
      simp only [Outcome.ret.injEq, Prod.mk.injEq, List.append_assoc, List.cons_append,
        List.nil_append, List.map_cons, true_and, List.length_append, List.length_cons,
        List.length_nil]
      omega

theorem stringSetToDirEntries_eq (o : MapOrder) (stringSet : StringSet) :
    stringSetToDirEntries o stringSet
      = .ret ((o.iter stringSet).map fun host => ⟨host, S_IFDIR⟩) := by
  have hlen : (List.replicate stringSet.length (⟨"", 0⟩ : DirEntry)).length
      = (o.iter stringSet).length := by
    simp [(o.perm stringSet).length_eq]
  have := forRange_fillStep (fun host => ⟨host, S_IFDIR⟩) (o.iter stringSet) [] _ [] hlen
  simp only [List.nil_append, List.append_nil, List.length_nil] at this
  simp [stringSetToDirEntries, this]

theorem eventToDirEntries_eq (o : MapOrder) (event : Event M T) :
    eventToDirEntries o event
      = .ret (riemann_fields.map (fun field => ⟨field, S_IFREG⟩)
          ++ (o.iter event.Attributes.keys).map (fun field => ⟨field, S_IFREG⟩)
          ++ [⟨".json", S_IFREG⟩]) := by
  have hrep : List.replicate (9 + event.Attributes.keys.length) (⟨"", 0⟩ : DirEntry)
      = [] ++ List.replicate 8 ⟨"", 0⟩
        ++ (List.replicate (o.iter event.Attributes.keys).length ⟨"", 0⟩ ++ [⟨"", 0⟩]) := by
    rw [(o.perm _).length_eq, List.nil_append, ← List.replicate_succ', ← List.replicate_add]
    congr 1
    omega
  have h1 := forRange_enumFrom (fun field => ⟨field, S_IFREG⟩) riemann_fields []
    (List.replicate 8 ⟨"", 0⟩)
    (List.replicate (o.iter event.Attributes.keys).length ⟨"", 0⟩ ++ [⟨"", 0⟩]) 0 (by decide)
  have h2 := forRange_fillStep (fun field => ⟨field, S_IFREG⟩) (o.iter event.Attributes.keys)
    (riemann_fields.map fun field => ⟨field, S_IFREG⟩)
    (List.replicate (o.iter event.Attributes.keys).length ⟨"", 0⟩) [⟨"", 0⟩] (by simp)
  have h3 := setIdx_append_cons
    ((riemann_fields.map fun field => (⟨field, S_IFREG⟩ : DirEntry))
      ++ (o.iter event.Attributes.keys).map fun field => ⟨field, S_IFREG⟩)
    (⟨"", 0⟩ : DirEntry) ⟨".json", S_IFREG⟩ []
  simp only [List.length_nil, List.nil_append, Nat.zero_add] at h1
  have hl8 : (riemann_fields.map fun field => (⟨field, S_IFREG⟩ : DirEntry)).length = 8 := by
    decide
  rw [hl8] at h2
  simp only [List.length_append, hl8, List.length_map] at h3
  unfold eventToDirEntries
  simp only [List.enum]
  rw [hrep]
  simp only [List.nil_append]
  rw [h1, Outcome.bind_ret]
  have hl : riemann_fields.length = 8 := by decide
  rw [hl, ← List.append_assoc, h2, Outcome.bind_ret]
  exact h3

/-! ## Listings of field values -/

theorem queryRiemann_eq (fs : RiemannFS M T) (query : String) :
    queryRiemann fs query = ⟨.ret (answered fs query), [query]⟩ := by
  unfold queryRiemann answered
  cases fs.RiemannClient query <;> rfl

theorem StringSet.mem_add (stringSet : StringSet) (k x : String) :
    x ∈ stringSet.add k ↔ x ∈ stringSet ∨ x = k := by
  unfold StringSet.add
  split_ifs with h
  · constructor
    · exact Or.inl
    · rintro (h1 | h1)
      · exact h1
      · exact h1 ▸ h
  · simp

theorem StringSet.nodup_add (stringSet : StringSet) (k : String) (h : stringSet.Nodup) :
    (stringSet.add k).Nodup := by
  unfold StringSet.add
  split_ifs with hk
  · exact h
  · exact List.Nodup.append h (List.nodup_singleton k) (by simpa using hk)

theorem mem_foldl_add (lambda : Event M T → String) (events : List (Event M T)) :
    ∀ (acc : StringSet) (x : String),
      x ∈ events.foldl (fun (fields : StringSet) event => fields.add (lambda event)) acc
        ↔ x ∈ acc ∨ ∃ ev ∈ events, lambda ev = x := by
  induction events with
  | nil => simp
  | cons e es ih =>
    intro acc x
    simp only [List.foldl_cons, ih, StringSet.mem_add, List.mem_cons, exists_eq_or_imp]
    constructor
    · rintro ((h | h) | h)
      · exact Or.inl h
      · exact Or.inr (Or.inl h.symm)
      · exact Or.inr (Or.inr h)
    · rintro (h | h | h)
      · exact Or.inl (Or.inl h)
      · exact Or.inl (Or.inr h.symm)
      · exact Or.inr h

theorem nodup_foldl_add (lambda : Event M T → String) (events : List (Event M T)) :
    ∀ (acc : StringSet), acc.Nodup →
      (events.foldl (fun (fields : StringSet) event => fields.add (lambda event)) acc).Nodup := by
  induction events with
  | nil => intro acc h; exact h
  | cons e es ih =>
    intro acc h
    exact ih _ (StringSet.nodup_add acc _ h)

theorem fieldForEventFromQuery_eq (fs : RiemannFS M T) (query : String)
    (lambda : Event M T → String) :
    fieldForEventFromQuery fs query lambda
      = ⟨.ret ((answered fs query).foldl
            (fun (fields : StringSet) event => fields.add (lambda event)) []),
          [query]⟩ := by
  simp [fieldForEventFromQuery, queryRiemann_eq]

/-- The directory entries made from the values of one field of the events:
all directories, one per distinct value. -/
theorem dirEntries_of_field (o : MapOrder) (lambda : Event M T → String)
    (events : List (Event M T)) (entries : List DirEntry)
    (h : entries
      = (o.iter (events.foldl
          (fun (fields : StringSet) event => fields.add (lambda event)) [])).map
        fun host => ⟨host, S_IFDIR⟩) :
    (∀ e ∈ entries, e.Mode = S_IFDIR) ∧
    (entries.map DirEntry.Name).Nodup ∧
    (∀ name, name ∈ entries.map DirEntry.Name ↔ ∃ ev ∈ events, lambda ev = name) ∧
    entries.length = (events.map lambda).toFinset.card := by
  have hnames : entries.map DirEntry.Name
      = o.iter (events.foldl (fun (fields : StringSet) event => fields.add (lambda event)) []) := by
    subst h
    simp [List.map_map, Function.comp_def]
  have hperm := o.perm
    (events.foldl (fun (fields : StringSet) event => fields.add (lambda event)) [])
  have hnd := nodup_foldl_add lambda events [] List.nodup_nil
  have hmem : ∀ name, name ∈ entries.map DirEntry.Name ↔ ∃ ev ∈ events, lambda ev = name := by
    intro name
    rw [hnames, hperm.mem_iff, mem_foldl_add]
    simp
  refine ⟨?_, ?_, hmem, ?_⟩
  · subst h
    intro e he
    simp only [List.mem_map] at he
    obtain ⟨_, _, rfl⟩ := he
    rfl
  · rw [hnames]
    exact hperm.nodup_iff.mpr hnd
  · have hl : entries.length = (entries.map DirEntry.Name).length := by simp
    rw [hl, ← List.toFinset_card_of_nodup (by rw [hnames]; exact hperm.nodup_iff.mpr hnd)]
    congr 1
    ext name
    simp only [List.mem_toFinset]
    rw [hmem]
    simp

theorem Split_of_not_mem (s : String) (sep : Char) (h : sep ∉ s.data) : Split s sep = [s] := by
  simp [Split, splitChars_of_not_mem sep s.data h]

/-- C3: for every plain-namespace depth-1 path `h` (non-empty, one segment, not
`.query`), `OpenDir` sends exactly the filter `host = "h"` and returns status OK
with directory entries whose names are the distinct Service values of the events
returned: every returned Service value is a name, every name is a returned
Service value, no name appears twice, and the number of entries is the number
of distinct Service values; a failed query gives no entries. -/
theorem OpenDir_plain_host (rt : Runtime M T) (fs : RiemannFS M T) (h : String)
    (hne : h ≠ "") (hq : h ≠ ".query") (hsep : PathSeparator ∉ h.data) :
    ∃ entries : List DirEntry,
      OpenDir rt fs h = ⟨.ret (entries, .OK), ["host = \"" ++ h ++ "\""]⟩ ∧
      (∀ e ∈ entries, e.Mode = S_IFDIR) ∧
      (entries.map DirEntry.Name).Nodup ∧
      (∀ events, fs.RiemannClient ("host = \"" ++ h ++ "\"") = .ok events →
        (∀ name, name ∈ entries.map DirEntry.Name ↔ ∃ ev ∈ events, ev.Service = name) ∧
        entries.length = (events.map fun ev => ev.Service).toFinset.card) ∧
      (∀ msg, fs.RiemannClient ("host = \"" ++ h ++ "\"") = .error msg → entries = []) := by
  have hsplit := Split_of_not_mem h PathSeparator hsep
  have hrun : OpenDir rt fs h
      = ⟨.ret ((rt.rangeOrder.iter ((answered fs ("host = \"" ++ h ++ "\"")).foldl
          (fun (fields : StringSet) event => fields.add event.Service) [])).map
            fun host => ⟨host, S_IFDIR⟩, .OK), ["host = \"" ++ h ++ "\""]⟩ := by
    simp [OpenDir, hne, hq, hsplit, fieldForEventFromQuery_eq, stringSetToDirEntries_eq]
  have hspec := dirEntries_of_field rt.rangeOrder (fun ev : Event M T => ev.Service)
    (answered fs ("host = \"" ++ h ++ "\"")) _ rfl
  refine ⟨_, hrun, hspec.1, hspec.2.1, ?_, ?_⟩
  · intro events hev
    have ha : answered fs ("host = \"" ++ h ++ "\"") = events := by simp [answered, hev]
    subst ha
    exact ⟨hspec.2.2.1, hspec.2.2.2⟩
  · intro msg hev
    have ha : answered fs ("host = \"" ++ h ++ "\"") = [] := by simp [answered, hev]
    rw [ha]
    simp [List.Perm.eq_nil (rt.rangeOrder.perm [])]

/-- C3 at the scenario: listing `web1` sends `host = "web1"` and yields `cpu`. -/
theorem OpenDir_plain_host_witness :
    ("web1" ≠ "" ∧ "web1" ≠ ".query" ∧ PathSeparator ∉ "web1".data) ∧
    OpenDir sampleRuntime sampleFS "web1"
      = ⟨.ret ([⟨"cpu", S_IFDIR⟩], .OK), ["host = \"web1\""]⟩ ∧
    ∃ entries : List DirEntry,
      OpenDir sampleRuntime sampleFS "web1"
        = ⟨.ret (entries, .OK), ["host = \"" ++ "web1" ++ "\""]⟩ ∧
      (∀ e ∈ entries, e.Mode = S_IFDIR) ∧
      (entries.map DirEntry.Name).Nodup ∧
      (∀ events, sampleFS.RiemannClient ("host = \"" ++ "web1" ++ "\"") = .ok events →
        (∀ name, name ∈ entries.map DirEntry.Name ↔ ∃ ev ∈ events, ev.Service = name) ∧
        entries.length = (events.map fun ev => ev.Service).toFinset.card) ∧
      (∀ msg, sampleFS.RiemannClient ("host = \"" ++ "web1" ++ "\"") = .error msg →
        entries = []) :=
  ⟨⟨by decide, by decide, by decide⟩, by decide,
    OpenDir_plain_host sampleRuntime sampleFS "web1" (by decide) (by decide) (by decide)⟩

/-- C4: listing the root sends the filter `true` and returns status OK with
directory entries named by the distinct Host values of the events returned,
followed by one more directory entry named `.query`: the number of entries is
the number of distinct Host values plus one, and `.query` is there also when
the query fails or returns nothing. -/
theorem OpenDir_root (rt : Runtime M T) (fs : RiemannFS M T) :
    ∃ hostEntries : List DirEntry,
      OpenDir rt fs "" = ⟨.ret (hostEntries ++ [⟨".query", S_IFDIR⟩], .OK), ["true"]⟩ ∧
      (∀ e ∈ hostEntries, e.Mode = S_IFDIR) ∧
      (hostEntries.map DirEntry.Name).Nodup ∧
      (∀ events, fs.RiemannClient "true" = .ok events →
        (∀ name, name ∈ hostEntries.map DirEntry.Name ↔ ∃ ev ∈ events, ev.Host = name) ∧
        (hostEntries ++ [(⟨".query", S_IFDIR⟩ : DirEntry)]).length
          = (events.map fun ev => ev.Host).toFinset.card + 1) ∧
      (fs.RiemannClient "true" = .ok [] → hostEntries = []) ∧
      (∀ msg, fs.RiemannClient "true" = .error msg → hostEntries = []) := by
  have hrun : OpenDir rt fs ""
      = ⟨.ret ((rt.rangeOrder.iter ((answered fs "true").foldl
          (fun (fields : StringSet) event => fields.add event.Host) [])).map
            (fun host => (⟨host, S_IFDIR⟩ : DirEntry)) ++ [⟨".query", S_IFDIR⟩], .OK),
          ["true"]⟩ := by
    simp [OpenDir, fieldForEventFromQuery_eq, stringSetToDirEntries_eq]
  have hspec := dirEntries_of_field rt.rangeOrder (fun ev : Event M T => ev.Host)
    (answered fs "true") _ rfl
  refine ⟨_, hrun, hspec.1, hspec.2.1, ?_, ?_, ?_⟩
  · intro events hev
    have ha : answered fs "true" = events := by simp [answered, hev]
    subst ha
    refine ⟨hspec.2.2.1, ?_⟩
    rw [List.length_append, hspec.2.2.2]
    rfl
  · intro hev
    have ha : answered fs "true" = [] := by simp [answered, hev]
    rw [ha]
    simp [List.Perm.eq_nil (rt.rangeOrder.perm [])]
  · intro msg hev
    have ha : answered fs "true" = [] := by simp [answered, hev]
    rw [ha]
    simp [List.Perm.eq_nil (rt.rangeOrder.perm [])]

/-! ## Listing of the fields of an event -/

/-- A key has a value in a map exactly when it is one of the map's keys. -/
theorem StringMap.isSome_get?_iff (m : StringMap) (k : String) :
    (m.get? k).isSome ↔ k ∈ m.keys := by
  unfold StringMap.get? StringMap.keys
  induction m.entries with
  | nil => simp
  | cons p l ih =>
    obtain ⟨a, b⟩ := p
    by_cases hk : k = a
    · subst hk
      simp [List.lookup_cons]
    · have hb : (k == a) = false := by simpa using hk
      simp [List.lookup_cons, hb, ih, hk]

/-- C5: for every event and every iteration order, `eventToDirEntries` returns
the eight entries `Service, Host, Metric, Description, State, Time, Tags, Ttl` in
that order, then entries named by the keys of the event's Attributes, each key
once, then the entry `.json`; all are regular files, and there are
`8 + |Attributes| + 1` of them. -/
theorem eventToDirEntries_layout (o : MapOrder) (event : Event M T) :
    ∃ entries attrEntries : List DirEntry,
      eventToDirEntries o event = .ret entries ∧
      entries =
        [⟨"Service", S_IFREG⟩, ⟨"Host", S_IFREG⟩, ⟨"Metric", S_IFREG⟩,
          ⟨"Description", S_IFREG⟩, ⟨"State", S_IFREG⟩, ⟨"Time", S_IFREG⟩,
          ⟨"Tags", S_IFREG⟩, ⟨"Ttl", S_IFREG⟩]
          ++ attrEntries ++ [⟨".json", S_IFREG⟩] ∧
      entries.length = 8 + event.Attributes.entries.length + 1 ∧
      (∀ e ∈ entries, e.Mode = S_IFREG) ∧
      (attrEntries.map DirEntry.Name).Perm (event.Attributes.entries.map Prod.fst) ∧
      (attrEntries.map DirEntry.Name).Nodup ∧
      (∀ key, key ∈ attrEntries.map DirEntry.Name ↔ (event.Attributes.get? key).isSome) := by
  have hnames : ((o.iter event.Attributes.keys).map
      fun field => (⟨field, S_IFREG⟩ : DirEntry)).map DirEntry.Name
        = o.iter event.Attributes.keys := by
    simp [List.map_map, Function.comp_def]
  have hperm := o.perm event.Attributes.keys
  refine ⟨_, (o.iter event.Attributes.keys).map fun field => ⟨field, S_IFREG⟩,
    eventToDirEntries_eq o event, rfl, ?_, ?_, ?_, ?_, ?_⟩
  · have hl : (o.iter event.Attributes.keys).length = event.Attributes.entries.length := by
      rw [hperm.length_eq, StringMap.keys, List.length_map]
    simp only [List.length_append, List.length_map, hl]
    rfl
  · intro e he
    simp only [List.mem_append, List.mem_map, List.mem_singleton] at he
    rcases he with (⟨_, _, rfl⟩ | ⟨_, _, rfl⟩) | rfl <;> rfl
  · rw [hnames]
    exact hperm
  · rw [hnames]
    exact hperm.nodup_iff.mpr event.Attributes.nodupKeys
  · intro key
    rw [hnames, hperm.mem_iff]
    exact (StringMap.isSome_get?_iff event.Attributes key).symm

/-! ## Attribute resolution -/

theorem InArray_iff (ary : List String) (value : String) :
    InArray ary value = true ↔ value ∈ ary := by
  induction ary with
  | nil => simp [InArray]
  | cons v rest ih =>
    unfold InArray
    by_cases h : v = value
    · simp [h]
    · have h2 : ¬ value = v := fun e => h e.symm
      simp [h, h2, ih]

/-- C6: for every event and field name, `valueForAttribute` fails with the
`Field not found` error exactly when the field name is not `.json`, is not a key
of the event's Attributes and is not one of the eight fixed names; matching is
exact, so `host` is unknown unless it is an attribute key. -/
theorem valueForAttribute_fieldNotFound_iff (rt : Runtime M T) (event : Event M T)
    (field : String) :
    (valueForAttribute rt event field = .error .fieldNotFound ↔
      field ≠ ".json" ∧ field ∉ event.Attributes.keys ∧
      field ∉ ["Service", "Host", "Metric", "Description", "State", "Time", "Tags", "Ttl"]) ∧
    ("host" ∉ event.Attributes.keys →
      valueForAttribute rt event "host" = .error .fieldNotFound) := by
  have key : ∀ name : String,
      valueForAttribute rt event name = .error .fieldNotFound ↔
        name ≠ ".json" ∧ name ∉ event.Attributes.keys ∧
        name ∉ ["Service", "Host", "Metric", "Description", "State", "Time", "Tags", "Ttl"] := by
    intro name
    unfold valueForAttribute
    by_cases hj : name = ".json"
    · simp only [hj, if_true]
      cases rt.jsonMarshal event <;> simp
    · simp only [hj, if_false]
      cases hg : event.Attributes.get? name with
      | some v =>
        have hk : name ∈ event.Attributes.keys :=
          (StringMap.isSome_get?_iff _ _).mp (by simp [hg])
        simp [hk]
      | none =>
        have hk : name ∉ event.Attributes.keys := fun hmem => by
          have := (StringMap.isSome_get?_iff _ _).mpr hmem
          simp [hg] at this
        by_cases hin : InArray riemann_fields name = true
        · have hmem : name ∈ riemann_fields := (InArray_iff _ _).mp hin
          simp only [hin, Bool.not_true, Bool.false_eq_true, if_false]
          constructor
          · intro h
            cases h
          · intro h
            exact absurd hmem h.2.2
        · have hmem : name ∉ riemann_fields := fun h => hin ((InArray_iff _ _).mpr h)
          have hin2 : InArray riemann_fields name = false := by simpa using hin
          simp only [hin2, Bool.not_false, if_true, true_iff]
          exact ⟨hj, hk, hmem⟩
  refine ⟨key field, fun hk => (key "host").mpr ⟨by decide, hk, by decide⟩⟩

/-- C7: for every event, a field name other than `.json` that is a key of the
Attributes yields exactly that attribute's value, also when the name is one of
the eight fixed names; and for every event, whatever its attributes, the field
`.json` yields what `json.Marshal` gives for the event, never the value of an
attribute whose key is `.json`. -/
theorem valueForAttribute_resolution_order (rt : Runtime M T) (event : Event M T)
    (field value : String) :
    (field ≠ ".json" → event.Attributes.get? field = some value →
      valueForAttribute rt event field = .ok value) ∧
    (∀ content, rt.jsonMarshal event = .ok content →
      valueForAttribute rt event ".json" = .ok content) ∧
    (∀ msg, rt.jsonMarshal event = .error msg →
      valueForAttribute rt event ".json" = .error (.marshal msg)) := by
  refine ⟨?_, ?_, ?_⟩
  · intro hjson hkey
    simp [valueForAttribute, hjson, hkey]
  · intro content hc
    simp [valueForAttribute, hc]
  · intro msg hm
    simp [valueForAttribute, hm]

/-- C7 on an event with attributes named `Host` and `.json` (`Host` reads the
attribute, `.json` reads the serialization) and on an event with no attribute
(`.json` reads the serialization). -/
theorem valueForAttribute_resolution_order_witness :
    ("Host" ≠ ".json" ∧ shadowEvent.Attributes.get? "Host" = some "attr-host" ∧
      shadowEvent.Attributes.get? ".json" = some "attr-json" ∧
      otherEvent.Attributes.get? ".json" = none) ∧
    valueForAttribute sampleRuntime shadowEvent "Host" = .ok "attr-host" ∧
    valueForAttribute sampleRuntime shadowEvent ".json" = .ok "\x7b\"host\":\"web1\"\x7d" ∧
    valueForAttribute sampleRuntime otherEvent ".json" = .ok "\x7b\"host\":\"web2\"\x7d" :=
  ⟨⟨by decide, by decide, by decide, by decide⟩,
    (valueForAttribute_resolution_order sampleRuntime shadowEvent "Host" "attr-host").1
      (by decide) (by decide),
    (valueForAttribute_resolution_order sampleRuntime shadowEvent "Host" "attr-host").2.1 _ rfl,
    (valueForAttribute_resolution_order sampleRuntime otherEvent "" "").2.1 _ rfl⟩

/-! ## Opening files and reading attributes -/

/-- A path classified as a file has the segments `[h, s, field]` with `h` other
than `.query`, or `[.query, f, h, s, field]`. -/
theorem nodeForPath_file (path : String) (segs : List String)
    (hnode : nodeForPath path = .ret (S_IFREG, segs)) :
    Split path PathSeparator = segs ∧
    ((∃ h s field, segs = [h, s, field] ∧ h ≠ ".query") ∨
      (∃ f h s field, segs = [".query", f, h, s, field])) := by
  obtain ⟨first, rest, hs⟩ := List.exists_cons_of_ne_nil (Split_ne_nil path PathSeparator)
  rw [nodeForPath_eq path first rest hs] at hnode
  simp only [Outcome.ret.injEq, Prod.mk.injEq] at hnode
  obtain ⟨htype, hsegs⟩ := hnode
  subst hsegs
  refine ⟨hs, ?_⟩
  by_cases hq : first = ".query"
  · right
    subst hq
    simp only [if_true] at htype
    split_ifs at htype with h4 h5
    · exact absurd htype (by decide)
    · match rest, h5 with
      | [f, h, s, field], _ => exact ⟨f, h, s, field, rfl⟩
    · exact absurd htype (by decide)
  · left
    simp only [hq, if_false] at htype
    split_ifs at htype with h2 h3
    · exact absurd htype (by decide)
    · match rest, h3 with
      | [s, field], _ => exact ⟨first, s, field, rfl, hq⟩
    · exact absurd htype (by decide)

theorem append_ne_empty_of_ne (a b : String) (ha : a ≠ "") : a ++ b ≠ "" := by
  intro h
  have hd := congrArg String.data h
  simp only [String.data_append, List.append_eq_nil] at hd
  exact ha (String.ext hd.1)

/-- The events a file path resolves to: the answer to the path's filter. -/
theorem getEventsForPath_of_query (fs : RiemannFS M T) (segs : List String) (q : String)
    (hq : queryForPath segs = .ret q) (hne : q ≠ "") :
    getEventsForPath fs segs = ⟨.ret (answered fs q), [q]⟩ := by
  simp [getEventsForPath, hq, hne, queryRiemann_eq]

/-- What `Open` does on a file path when no write-intent bit is set. -/
theorem Open_file (rt : Runtime M T) (fs : RiemannFS M T) (path : String) (flags : Nat)
    (segs : List String) (q field : String)
    (hnode : nodeForPath path = .ret (S_IFREG, segs)) (hflags : flags &&& O_ANYWRITE = 0)
    (hq : queryForPath segs = .ret q) (hne : q ≠ "")
    (hlast : idx segs (segs.length - 1) = .ret field) :
    Open rt fs path flags =
      match answered fs q with
      | [] => ⟨.ret (none, .ENOENT), [q]⟩
      | [event] =>
        match valueForAttribute rt event field with
        | .ok value => ⟨.ret (some value, .OK), [q]⟩
        | .error _ => ⟨.ret (none, .ENOENT), [q]⟩
      | _ :: _ :: _ => ⟨.panic "Got more then 1 event for query, this should never happen", [q]⟩ := by
  simp only [Open, hnode, Run.lift_ret, Run.bind_mk_ret, if_true, hflags, ne_eq,
    not_true_eq_false, if_false, getEventsForPath_of_query fs segs q hq hne, hlast]
  match answered fs q with
  | [] => simp
  | [event] =>
    simp only [List.length_singleton, gt_iff_lt, lt_self_iff_false, if_false, one_ne_zero,
      idx_cons_zero, Run.lift_ret, Run.bind_mk_ret, List.nil_append, List.append_nil]
    cases valueForAttribute rt event field <;> simp
  | _ :: _ :: _ => simp

/-- What `GetAttr` does on a file path. -/
theorem GetAttr_file (rt : Runtime M T) (fs : RiemannFS M T) (path : String)
    (segs : List String) (q field : String)
    (hnode : nodeForPath path = .ret (S_IFREG, segs))
    (hq : queryForPath segs = .ret q) (hne : q ≠ "")
    (hlast : idx segs (segs.length - 1) = .ret field) :
    GetAttr rt fs path =
      match answered fs q with
      | [event] =>
        match valueForAttribute rt event field with
        | .ok value => ⟨.ret (some ⟨S_IFREG ||| 0o644, value.utf8ByteSize⟩, .OK), [q]⟩
        | .error _ => ⟨.ret (some ⟨S_IFREG ||| 0o644, 0⟩, .OK), [q]⟩
      | _ => ⟨.ret (none, .ENOENT), [q]⟩ := by
  have hne2 : S_IFREG ≠ S_IFDIR := by decide
  simp only [GetAttr, hnode, Run.lift_ret, Run.bind_mk_ret, hne2, if_true, if_false,
    getEventsForPath_of_query fs segs q hq hne, hlast]
  match answered fs q with
  | [] => simp
  | [event] =>
    simp only [List.length_singleton, if_true, idx_cons_zero, Run.lift_ret, Run.bind_mk_ret,
      List.nil_append, List.append_nil]
    cases valueForAttribute rt event field <;> simp
  | _ :: _ :: _ => simp

/-- The filter and the field of a file path. -/
theorem file_path_query (segs : List String)
    (hshape : (∃ h s field, segs = [h, s, field] ∧ h ≠ ".query") ∨
      (∃ f h s field, segs = [".query", f, h, s, field])) :
    ∃ q field, queryForPath segs = .ret q ∧ q ≠ "" ∧
      idx segs (segs.length - 1) = .ret field ∧
      ((∃ h s, segs = [h, s, field] ∧ h ≠ ".query" ∧
          q = "host = \"" ++ h ++ "\" and service = \"" ++ s ++ "\"") ∨
        (∃ f h s, segs = [".query", f, h, s, field] ∧
          q = "(" ++ f ++ ") and host = \"" ++ h ++ "\" and service = \"" ++ s ++ "\"")) := by
  rcases hshape with ⟨h, s, field, rfl, hq⟩ | ⟨f, h, s, field, rfl⟩
  · refine ⟨"host = \"" ++ h ++ "\" and service = \"" ++ s ++ "\"", field,
      by simp [queryForPath, hq], ?_, by simp, Or.inl ⟨h, s, rfl, hq, rfl⟩⟩
    simp only [String.append_assoc]
    exact append_ne_empty_of_ne _ _ (by decide)
  · refine ⟨"(" ++ f ++ ") and host = \"" ++ h ++ "\" and service = \"" ++ s ++ "\"", field,
      by simp [queryForPath], ?_, by simp, Or.inr ⟨f, h, s, rfl, rfl⟩⟩
    simp only [String.append_assoc]
    exact append_ne_empty_of_ne _ _ (by decide)

/-- C8: for every path classified as a file (segments `[h, s, field]` or
`[.query, f, h, s, field]`) and flags without a write-intent bit, `Open` sends the
path's filter; it returns NotFound when the client returns no event (or fails);
when the client returns exactly one event it succeeds with the content
`valueForAttribute` gives for that event and the last segment, and returns
NotFound when `valueForAttribute` fails.  For a path not classified as a file,
`Open` returns NotFound without a query. -/
theorem Open_read (rt : Runtime M T) (fs : RiemannFS M T) (path : String) (flags : Nat) :
    (∀ segs, nodeForPath path = .ret (S_IFREG, segs) → flags &&& O_ANYWRITE = 0 →
      ∃ q field,
        ((∃ h s, segs = [h, s, field] ∧ h ≠ ".query" ∧
            q = "host = \"" ++ h ++ "\" and service = \"" ++ s ++ "\"") ∨
          (∃ f h s, segs = [".query", f, h, s, field] ∧
            q = "(" ++ f ++ ") and host = \"" ++ h ++ "\" and service = \"" ++ s ++ "\"")) ∧
        (fs.RiemannClient q = .ok [] →
          Open rt fs path flags = ⟨.ret (none, .ENOENT), [q]⟩) ∧
        (∀ msg, fs.RiemannClient q = .error msg →
          Open rt fs path flags = ⟨.ret (none, .ENOENT), [q]⟩) ∧
        (∀ event, fs.RiemannClient q = .ok [event] →
          (∀ value, valueForAttribute rt event field = .ok value →
            Open rt fs path flags = ⟨.ret (some value, .OK), [q]⟩) ∧
          (∀ err, valueForAttribute rt event field = .error err →
            Open rt fs path flags = ⟨.ret (none, .ENOENT), [q]⟩))) ∧
    ((∀ segs, nodeForPath path ≠ .ret (S_IFREG, segs)) →
      Open rt fs path flags = ⟨.ret (none, .ENOENT), []⟩) := by
  constructor
  · intro segs hnode hflags
    obtain ⟨q, field, hq, hne, hlast, hshape⟩ :=
      file_path_query segs (nodeForPath_file path segs hnode).2
    have hopen := Open_file rt fs path flags segs q field hnode hflags hq hne hlast
    refine ⟨q, field, hshape, ?_, ?_, ?_⟩
    · intro hev
      have ha : answered fs q = [] := by simp [answered, hev]
      simpa [ha] using hopen
    · intro msg hev
      have ha : answered fs q = [] := by simp [answered, hev]
      simpa [ha] using hopen
    · intro event hev
      have ha : answered fs q = [event] := by simp [answered, hev]
      rw [ha] at hopen
      refine ⟨fun value hv => ?_, fun err hv => ?_⟩
      · simpa [hv] using hopen
      · simpa [hv] using hopen
  · intro hnot
    obtain ⟨first, rest, hs⟩ := List.exists_cons_of_ne_nil (Split_ne_nil path PathSeparator)
    obtain ⟨t, ht⟩ : ∃ t, nodeForPath path = .ret (t, first :: rest) :=
      ⟨_, nodeForPath_eq path first rest hs⟩
    have h1 : t ≠ S_IFREG := fun heq => hnot (first :: rest) (heq ▸ ht)
    simp [Open, ht, h1]

/-- C8 at the scenario: reading `web1/cpu/Time` read-only. -/
theorem Open_read_witness :
    Open sampleRuntime sampleFS "web1/cpu/Time" 0
      = ⟨.ret (some "100", .OK), ["host = \"web1\" and service = \"cpu\""]⟩ ∧
    ∃ q field,
      ((∃ h s, ["web1", "cpu", "Time"] = [h, s, field] ∧ h ≠ ".query" ∧
          q = "host = \"" ++ h ++ "\" and service = \"" ++ s ++ "\"") ∨
        (∃ f h s, ["web1", "cpu", "Time"] = [".query", f, h, s, field] ∧
          q = "(" ++ f ++ ") and host = \"" ++ h ++ "\" and service = \"" ++ s ++ "\"")) ∧
      (sampleFS.RiemannClient q = .ok [] →
        Open sampleRuntime sampleFS "web1/cpu/Time" 0 = ⟨.ret (none, .ENOENT), [q]⟩) ∧
      (∀ msg, sampleFS.RiemannClient q = .error msg →
        Open sampleRuntime sampleFS "web1/cpu/Time" 0 = ⟨.ret (none, .ENOENT), [q]⟩) ∧
      (∀ event, sampleFS.RiemannClient q = .ok [event] →
        (∀ value, valueForAttribute sampleRuntime event field = .ok value →
          Open sampleRuntime sampleFS "web1/cpu/Time" 0 = ⟨.ret (some value, .OK), [q]⟩) ∧
        (∀ err, valueForAttribute sampleRuntime event field = .error err →
          Open sampleRuntime sampleFS "web1/cpu/Time" 0 = ⟨.ret (none, .ENOENT), [q]⟩)) :=
  ⟨by decide,
    (Open_read sampleRuntime sampleFS "web1/cpu/Time" 0).1 ["web1", "cpu", "Time"]
      (by decide) (by decide)⟩

/-- C9: for every path classified as a file and every flags value with a
write-intent bit set, `Open` returns PermissionDenied and sends no query,
whatever the client would answer. -/
theorem Open_write_denied (rt : Runtime M T) (fs : RiemannFS M T) (path : String)
    (flags : Nat) (segs : List String)
    (hnode : nodeForPath path = .ret (S_IFREG, segs)) (hflags : flags &&& O_ANYWRITE ≠ 0) :
    Open rt fs path flags = ⟨.ret (none, .EPERM), []⟩ := by
  simp [Open, hnode, hflags]

/-- C9 at the scenario: opening `web1/cpu/Time` and `.query/true/web1/cpu/nope`
for writing, the second against a failing client. -/
theorem Open_write_denied_witness :
    (nodeForPath "web1/cpu/Time" = .ret (S_IFREG, ["web1", "cpu", "Time"]) ∧
      1 &&& O_ANYWRITE ≠ 0) ∧
    Open sampleRuntime sampleFS "web1/cpu/Time" 1 = ⟨.ret (none, .EPERM), []⟩ ∧
    Open sampleRuntime failingFS ".query/true/web1/cpu/nope" 0x402
      = ⟨.ret (none, .EPERM), []⟩ :=
  ⟨⟨by decide, by decide⟩,
    Open_write_denied sampleRuntime sampleFS "web1/cpu/Time" 1 ["web1", "cpu", "Time"]
      (by decide) (by decide),
    Open_write_denied sampleRuntime failingFS ".query/true/web1/cpu/nope" 0x402
      [".query", "true", "web1", "cpu", "nope"] (by decide) (by decide)⟩

/-- When the field resolves, the size `GetAttr` reports is the length of the
content `Open` returns. -/
theorem GetAttr_size_of_resolved (rt : Runtime M T) (fs : RiemannFS M T) (path : String)
    (segs : List String) (q field : String) (event : Event M T) (value : String)
    (hnode : nodeForPath path = .ret (S_IFREG, segs))
    (hq : queryForPath segs = .ret q) (hne : q ≠ "")
    (hlast : idx segs (segs.length - 1) = .ret field)
    (hev : answered fs q = [event]) (hv : valueForAttribute rt event field = .ok value) :
    GetAttr rt fs path = ⟨.ret (some ⟨S_IFREG ||| 0o644, value.utf8ByteSize⟩, .OK), [q]⟩ ∧
    Open rt fs path 0 = ⟨.ret (some value, .OK), [q]⟩ := by
  constructor
  · have h := GetAttr_file rt fs path segs q field hnode hq hne hlast
    simpa [hev, hv] using h
  · have h := Open_file rt fs path 0 segs q field hnode (by decide) hq hne hlast
    simpa [hev, hv] using h

/-- C10 fails on the code: for the file path `web1/cpu/nope`, whose last segment
names no field, against a client answering with one event, `GetAttr` reports a
regular file of size 0 while `Open` with read-only flags returns NotFound. -/
theorem GetAttr_Open_disagree :
    GetAttr sampleRuntime sampleFS "web1/cpu/nope"
      = ⟨.ret (some ⟨S_IFREG ||| 0o644, 0⟩, .OK),
          ["host = \"web1\" and service = \"cpu\""]⟩ ∧
    Open sampleRuntime sampleFS "web1/cpu/nope" 0
      = ⟨.ret (none, .ENOENT), ["host = \"web1\" and service = \"cpu\""]⟩ := by
  decide

/-! ## Listings in the advanced namespace -/

/-- What `OpenDir` does on `[.query, f]` and on `[.query, f, h]`: in both cases
the filter sent is the second segment. -/
theorem OpenDir_query_listing (rt : Runtime M T) (fs : RiemannFS M T) (name f : String)
    (rest : List String) (hname : name ≠ "") (hlen : rest.length ≤ 1)
    (hsplit : Split name PathSeparator = ".query" :: f :: rest) :
    OpenDir rt fs name
      = ⟨.ret ((rt.rangeOrder.iter ((answered fs f).foldl
          (fun (fields : StringSet) event =>
            fields.add (if rest.length = 0 then event.Host else event.Service)) [])).map
            fun host => ⟨host, S_IFDIR⟩, .OK), [f]⟩ := by
  match rest, hlen with
  | [], _ =>
    simp [OpenDir, hname, hsplit, fieldForEventFromQuery_eq, stringSetToDirEntries_eq]
  | [h], _ =>
    simp [OpenDir, hname, hsplit, fieldForEventFromQuery_eq, stringSetToDirEntries_eq]

/-- C11 fails on the code: listing `.query/true/web1` sends the filter `true`, not
`(true) and host = "web1"`, and lists the services of every host that matches
`true` (`mem` of host `web2` among them). -/
theorem OpenDir_query_host_sends_filter_only :
    OpenDir sampleRuntime twoHostFS ".query/true/web1"
      = ⟨.ret ([⟨"mem", S_IFDIR⟩, ⟨"cpu", S_IFDIR⟩], .OK), ["true"]⟩ ∧
    queryForPath [".query", "true", "web1"] = .ret "(true) and host = \"web1\"" ∧
    twoHostFS.RiemannClient "(true) and host = \"web1\"" = .ok [sampleEvent] :=
  ⟨by decide, by decide, by simp [twoHostFS]⟩

/-- C12 fails on the code: listing `.query/true/web1/cpu` against a client that
returns no event panics on `events[0]`, while listing `web1/cpu` returns the
empty listing with status OK. -/
theorem OpenDir_query_service_no_event :
    OpenDir sampleRuntime emptyFS ".query/true/web1/cpu"
      = ⟨.panic "index out of range",
          ["(true) and host = \"web1\" and service = \"cpu\""]⟩ ∧
    OpenDir sampleRuntime emptyFS "web1/cpu"
      = ⟨.ret ([], .OK), ["host = \"web1\" and service = \"cpu\""]⟩ := by
  decide

/-- C13 fails on the code: listing `.query/true/web1/cpu` against a client that
returns two events does not panic and lists the fields of the first event, while
listing `web1/cpu` and opening `web1/cpu/Time` panic. -/
theorem OpenDir_query_service_two_events :
    OpenDir sampleRuntime duplicateFS ".query/true/web1/cpu"
      = ⟨.ret ([⟨"Service", S_IFREG⟩, ⟨"Host", S_IFREG⟩, ⟨"Metric", S_IFREG⟩,
          ⟨"Description", S_IFREG⟩, ⟨"State", S_IFREG⟩, ⟨"Time", S_IFREG⟩,
          ⟨"Tags", S_IFREG⟩, ⟨"Ttl", S_IFREG⟩, ⟨"rack", S_IFREG⟩, ⟨".json", S_IFREG⟩], .OK),
          ["(true) and host = \"web1\" and service = \"cpu\""]⟩ ∧
    OpenDir sampleRuntime duplicateFS "web1/cpu"
      = ⟨.panic "Got more then 1 event for (host, service) query, this should never happen",
          ["host = \"web1\" and service = \"cpu\""]⟩ ∧
    Open sampleRuntime duplicateFS "web1/cpu/Time" 0
      = ⟨.panic "Got more then 1 event for query, this should never happen",
          ["host = \"web1\" and service = \"cpu\""]⟩ := by
  decide

/-! ## Every listing `OpenDir` returns -/

theorem mem_answered (fs : RiemannFS M T) (q : String) (event : Event M T)
    (h : event ∈ answered fs q) :
    ∃ events, fs.RiemannClient q = .ok events ∧ event ∈ events := by
  unfold answered at h
  cases hc : fs.RiemannClient q with
  | error msg => simp [hc] at h
  | ok events => exact ⟨events, rfl, by simpa [hc] using h⟩

/-- The forms the result of `OpenDir` can take: a panic, the empty listing, the
values of one field of the events answered to one filter, these for the hosts
at the root followed by `.query`, or, on a path `[h, s]` or `[.query, f, h, s]`,
the fields of the first event answered to the path's filter. -/
theorem OpenDir_shape (rt : Runtime M T) (fs : RiemannFS M T) (name : String) :
    (∃ msg, (OpenDir rt fs name).out = .panic msg) ∨
    (OpenDir rt fs name).out = .ret ([], .OK) ∨
    (∃ (lambda : Event M T → String) (q : String),
      (OpenDir rt fs name).out = .ret ((rt.rangeOrder.iter ((answered fs q).foldl
        (fun (fields : StringSet) event => fields.add (lambda event)) [])).map
          (fun host => ⟨host, S_IFDIR⟩), .OK)) ∨
    (name = "" ∧
      (OpenDir rt fs name).out = .ret ((rt.rangeOrder.iter ((answered fs "true").foldl
        (fun (fields : StringSet) event => fields.add event.Host) [])).map
          (fun host => (⟨host, S_IFDIR⟩ : DirEntry)) ++ [⟨".query", S_IFDIR⟩], .OK)) ∨
    (∃ (q : String) (event : Event M T) (more : List (Event M T)),
      ((∃ h s, Split name PathSeparator = [h, s] ∧ h ≠ ".query") ∨
        (∃ f h s, Split name PathSeparator = [".query", f, h, s])) ∧
      queryForPath (Split name PathSeparator) = .ret q ∧
      answered fs q = event :: more ∧
      (OpenDir rt fs name).out = .ret
        (riemann_fields.map (fun field => (⟨field, S_IFREG⟩ : DirEntry))
          ++ (rt.rangeOrder.iter event.Attributes.keys).map (fun field => ⟨field, S_IFREG⟩)
          ++ [⟨".json", S_IFREG⟩], .OK)) := by
  by_cases hname : name = ""
  · right; right; right; left
    subst hname
    refine ⟨rfl, ?_⟩
    simp [OpenDir, fieldForEventFromQuery_eq, stringSetToDirEntries_eq]
  · obtain ⟨first, rest, hs⟩ := List.exists_cons_of_ne_nil (Split_ne_nil name PathSeparator)
    by_cases hq : first = ".query"
    · subst hq
      match rest, hs with
      | [], hs =>
        right; left
        simp [OpenDir, hname, hs]
      | [f], hs =>
        right; right; left
        refine ⟨fun e => e.Host, f, ?_⟩
        simp [OpenDir, hname, hs, fieldForEventFromQuery_eq, stringSetToDirEntries_eq]
      | [f, h], hs =>
        right; right; left
        refine ⟨fun e => e.Service, f, ?_⟩
        simp [OpenDir, hname, hs, fieldForEventFromQuery_eq, stringSetToDirEntries_eq]
      | [f, h, s], hs =>
        have hquery : queryForPath [".query", f, h, s]
            = .ret ("(" ++ f ++ ") and host = \"" ++ h ++ "\" and service = \"" ++ s ++ "\"") := by
          simp [queryForPath]
        have hne : "(" ++ f ++ ") and host = \"" ++ h ++ "\" and service = \"" ++ s ++ "\""
            ≠ "" := by
          simp only [String.append_assoc]
          exact append_ne_empty_of_ne _ _ (by decide)
        have hev := getEventsForPath_of_query fs _ _ hquery hne
        cases ha : answered fs
            ("(" ++ f ++ ") and host = \"" ++ h ++ "\" and service = \"" ++ s ++ "\"") with
        | nil =>
          left
          refine ⟨"index out of range", ?_⟩
          simp [OpenDir, hname, hs, hev, ha, idx, Run.lift, Run.bind]
        | cons event more =>
          right; right; right; right
          refine ⟨_, event, more, Or.inr ⟨f, h, s, hs⟩, by rw [hs]; exact hquery, ha, ?_⟩
          simp [OpenDir, hname, hs, hev, ha, eventToDirEntries_eq]
      | _ :: _ :: _ :: _ :: _, hs =>
        right; left
        simp [OpenDir, hname, hs]
    · match rest, hs with
      | [], hs =>
        right; right; left
        refine ⟨fun e => e.Service, "host = \"" ++ name ++ "\"", ?_⟩
        simp [OpenDir, hname, hs, hq, fieldForEventFromQuery_eq, stringSetToDirEntries_eq]
      | [s], hs =>
        have hquery : queryForPath [first, s]
            = .ret ("host = \"" ++ first ++ "\" and service = \"" ++ s ++ "\"") := by
          simp [queryForPath, hq]
        have hne : "host = \"" ++ first ++ "\" and service = \"" ++ s ++ "\"" ≠ "" := by
          simp only [String.append_assoc]
          exact append_ne_empty_of_ne _ _ (by decide)
        have hev := getEventsForPath_of_query fs _ _ hquery hne
        match ha : answered fs ("host = \"" ++ first ++ "\" and service = \"" ++ s ++ "\"") with
        | [] =>
          right; left
          simp [OpenDir, hname, hs, hq, hev, ha]
        | [event] =>
          right; right; right; right
          refine ⟨_, event, [], Or.inl ⟨first, s, hs, hq⟩, by rw [hs]; exact hquery, ha, ?_⟩
          simp [OpenDir, hname, hs, hq, hev, ha, eventToDirEntries_eq]
        | _ :: _ :: _ =>
          left
          refine ⟨"Got more then 1 event for (host, service) query, this should never happen",
            ?_⟩
          simp [OpenDir, hname, hs, hq, hev, ha]
      | _ :: _ :: _, hs =>
        right; left
        simp [OpenDir, hname, hs, hq]

/-- What `OpenDir` does on a path `[h, s]` or `[.query, f, h, s]` when the client
answers the path's filter with at least one event: it lists the fields of the
first event, or panics. -/
theorem OpenDir_record_listing (rt : Runtime M T) (fs : RiemannFS M T) (name q : String)
    (event : Event M T) (more : List (Event M T))
    (hshape : (∃ h s, Split name PathSeparator = [h, s] ∧ h ≠ ".query") ∨
      (∃ f h s, Split name PathSeparator = [".query", f, h, s]))
    (hq : queryForPath (Split name PathSeparator) = .ret q)
    (ha : answered fs q = event :: more) :
    (OpenDir rt fs name).out = .ret
        (riemann_fields.map (fun field => DirEntry.mk field S_IFREG)
          ++ (rt.rangeOrder.iter event.Attributes.keys).map
            (fun field => DirEntry.mk field S_IFREG)
          ++ [DirEntry.mk ".json" S_IFREG], .OK) ∨
      ∃ msg, (OpenDir rt fs name).out = .panic msg := by
  have hroot : Split "" PathSeparator = [""] := by decide
  rcases hshape with ⟨h, s, hs, hne⟩ | ⟨f, h, s, hs⟩
  · have hname : name ≠ "" := by
      intro e
      rw [e, hroot] at hs
      simp at hs
    have hquery : queryForPath [h, s]
        = .ret ("host = \"" ++ h ++ "\" and service = \"" ++ s ++ "\"") := by
      simp [queryForPath, hne]
    have hqne : "host = \"" ++ h ++ "\" and service = \"" ++ s ++ "\"" ≠ "" := by
      simp only [String.append_assoc]
      exact append_ne_empty_of_ne _ _ (by decide)
    rw [hs, hquery] at hq
    cases hq
    have hev := getEventsForPath_of_query fs _ _ hquery hqne
    cases more with
    | nil =>
      left
      simp [OpenDir, hname, hs, hne, hev, ha, eventToDirEntries_eq]
    | cons second rest =>
      right
      refine ⟨"Got more then 1 event for (host, service) query, this should never happen",
        ?_⟩
      simp [OpenDir, hname, hs, hne, hev, ha]
  · have hname : name ≠ "" := by
      intro e
      rw [e, hroot] at hs
      simp at hs
    have hquery : queryForPath [".query", f, h, s]
        = .ret ("(" ++ f ++ ") and host = \"" ++ h ++ "\" and service = \"" ++ s ++ "\"") := by
      simp [queryForPath]
    have hqne : "(" ++ f ++ ") and host = \"" ++ h ++ "\" and service = \"" ++ s ++ "\""
        ≠ "" := by
      simp only [String.append_assoc]
      exact append_ne_empty_of_ne _ _ (by decide)
    rw [hs, hquery] at hq
    cases hq
    have hev := getEventsForPath_of_query fs _ _ hquery hqne
    left
    simp [OpenDir, hname, hs, hev, ha, eventToDirEntries_eq]

/-- What `OpenDir` returns at the root. -/
theorem OpenDir_root_out (rt : Runtime M T) (fs : RiemannFS M T) :
    (OpenDir rt fs "").out = .ret ((rt.rangeOrder.iter ((answered fs "true").foldl
      (fun (fields : StringSet) event => fields.add event.Host) [])).map
        (fun host => DirEntry.mk host S_IFDIR) ++ [DirEntry.mk ".query" S_IFDIR], .OK) := by
  simp [OpenDir, fieldForEventFromQuery_eq, stringSetToDirEntries_eq]

/-- The names of a field listing are distinct exactly when no attribute key is a
fixed name or `.json`. -/
theorem field_names_nodup_iff (o : MapOrder) (event : Event M T) :
    ((riemann_fields.map (fun field => DirEntry.mk field S_IFREG)
      ++ (o.iter event.Attributes.keys).map (fun field => DirEntry.mk field S_IFREG)
      ++ [DirEntry.mk ".json" S_IFREG]).map DirEntry.Name).Nodup
      ↔ ∀ key ∈ event.Attributes.keys, key ∉ riemann_fields ∧ key ≠ ".json" := by
  have hperm := o.perm event.Attributes.keys
  have hnames : ((riemann_fields.map (fun field => DirEntry.mk field S_IFREG)
      ++ (o.iter event.Attributes.keys).map (fun field => DirEntry.mk field S_IFREG)
      ++ [DirEntry.mk ".json" S_IFREG]).map DirEntry.Name)
        = riemann_fields ++ o.iter event.Attributes.keys ++ [".json"] := by
    simp [List.map_map, Function.comp_def]
  rw [hnames, List.nodup_append, List.nodup_append]
  constructor
  · rintro ⟨⟨_, _, hdisj⟩, _, hjson⟩ key hkey
    have hk : key ∈ o.iter event.Attributes.keys := hperm.mem_iff.mpr hkey
    refine ⟨fun hfixed => hdisj hfixed hk, fun he => ?_⟩
    exact hjson (List.mem_append_right _ hk) (by rw [he]; exact List.mem_singleton_self _)
  · intro hattr
    refine ⟨⟨by decide, hperm.nodup_iff.mpr event.Attributes.nodupKeys, ?_⟩,
      List.nodup_singleton _, ?_⟩
    · intro key hfixed hkey
      exact (hattr key (hperm.mem_iff.mp hkey)).1 hfixed
    · intro key hkey hjson
      rw [List.mem_singleton] at hjson
      subst hjson
      rcases List.mem_append.mp hkey with hfixed | hk
      · exact absurd hfixed (by decide)
      · exact (hattr _ (hperm.mem_iff.mp hk)).2 rfl

/-- C14, as stated, fails: listing `web1/cpu` for an event with attributes named
`Host` and `.json` returns the names `Host` and `.json` twice, and listing the
root of a store with a host named `.query` returns `.query` twice. -/
theorem OpenDir_names_repeat :
    (∃ entries, (OpenDir sampleRuntime shadowFS "web1/cpu").out = .ret (entries, .OK) ∧
      ¬ (entries.map DirEntry.Name).Nodup) ∧
    (∃ entries, (OpenDir sampleRuntime queryHostFS "").out = .ret (entries, .OK) ∧
      ¬ (entries.map DirEntry.Name).Nodup) := by
  refine ⟨⟨[⟨"Service", S_IFREG⟩, ⟨"Host", S_IFREG⟩, ⟨"Metric", S_IFREG⟩,
      ⟨"Description", S_IFREG⟩, ⟨"State", S_IFREG⟩, ⟨"Time", S_IFREG⟩, ⟨"Tags", S_IFREG⟩,
      ⟨"Ttl", S_IFREG⟩, ⟨".json", S_IFREG⟩, ⟨"Host", S_IFREG⟩, ⟨".json", S_IFREG⟩],
      by decide, by decide⟩,
    ⟨[⟨".query", S_IFDIR⟩, ⟨".query", S_IFDIR⟩], by decide, by decide⟩⟩

/-- C14, amended: whenever `OpenDir` returns a listing, no two of its entries
share a name, provided that (a) at the root, no event returned for the filter
`true` has the host `.query`, and (b) on a path `[h, s]` (`h` other than `.query`)
or `[.query, f, h, s]`, the event whose fields are listed, the first one returned
for the path's filter, has no attribute key equal to one of the eight fixed
names or to `.json`.  Listings of hosts and of services need no proviso, and
(a) and (b) are also necessary: the names are distinct exactly when they hold. -/
theorem OpenDir_names_nodup (rt : Runtime M T) (fs : RiemannFS M T) (name : String)
    (entries : List DirEntry) (status : Status)
    (hret : (OpenDir rt fs name).out = .ret (entries, status)) :
    (entries.map DirEntry.Name).Nodup ↔
      ((name = "" → ∀ events, fs.RiemannClient "true" = .ok events →
          ∀ event ∈ events, event.Host ≠ ".query") ∧
        (∀ (q : String) (event : Event M T) (more : List (Event M T)),
          ((∃ h s, Split name PathSeparator = [h, s] ∧ h ≠ ".query") ∨
            (∃ f h s, Split name PathSeparator = [".query", f, h, s])) →
          queryForPath (Split name PathSeparator) = .ret q →
          fs.RiemannClient q = .ok (event :: more) →
          ∀ key ∈ event.Attributes.keys,
            key ∉ ["Service", "Host", "Metric", "Description", "State", "Time", "Tags", "Ttl"]
              ∧ key ≠ ".json")) := by
  have hroot : Split "" PathSeparator = [""] := by decide
  constructor
  · intro hnodup
    constructor
    · intro hname events hclient event hev hhostEq
      subst hname
      rw [OpenDir_root_out] at hret
      cases hret
      have hspec := dirEntries_of_field rt.rangeOrder (fun ev : Event M T => ev.Host)
        (answered fs "true") _ rfl
      have ha : answered fs "true" = events := by simp [answered, hclient]
      rw [List.map_append, List.nodup_append] at hnodup
      have hin : ".query" ∈ ((rt.rangeOrder.iter ((answered fs "true").foldl
          (fun (fields : StringSet) event => fields.add event.Host) [])).map
            (fun host => DirEntry.mk host S_IFDIR)).map DirEntry.Name :=
        (hspec.2.2.1 ".query").mpr ⟨event, by rw [ha]; exact hev, hhostEq⟩
      exact hnodup.2.2 hin (by simp)
    · intro q event more hshape hq hclient
      have ha : answered fs q = event :: more := by simp [answered, hclient]
      rcases OpenDir_record_listing rt fs name q event more hshape hq ha with hout | ⟨msg, hp⟩
      · rw [hout] at hret
        cases hret
        exact (field_names_nodup_iff rt.rangeOrder event).mp hnodup
      · rw [hp] at hret
        cases hret
  · rintro ⟨hhost, hattr⟩
    rcases OpenDir_shape rt fs name with ⟨msg, hp⟩ | hnil | ⟨lambda, q, hset⟩ | ⟨hname, hr⟩ |
      ⟨q, event, more, hshape, hq, ha, hfields⟩
    · rw [hp] at hret
      cases hret
    · rw [hnil] at hret
      cases hret
      exact List.nodup_nil
    · rw [hset] at hret
      cases hret
      exact (dirEntries_of_field rt.rangeOrder lambda (answered fs q) _ rfl).2.1
    · rw [hr] at hret
      cases hret
      have hspec := dirEntries_of_field rt.rangeOrder (fun ev : Event M T => ev.Host)
        (answered fs "true") _ rfl
      rw [List.map_append, List.nodup_append]
      refine ⟨hspec.2.1, List.nodup_singleton _, ?_⟩
      intro host hin hq
      have hq2 : host = ".query" := by simpa using hq
      subst hq2
      obtain ⟨event, hev, hhostEq⟩ := (hspec.2.2.1 ".query").mp hin
      obtain ⟨events, hclient, hevents⟩ := mem_answered fs "true" event hev
      exact hhost hname events hclient event hevents hhostEq
    · rw [hfields] at hret
      cases hret
      have hclient : fs.RiemannClient q = .ok (event :: more) := by
        unfold answered at ha
        cases hc : fs.RiemannClient q with
        | error msg => simp [hc] at ha
        | ok events => simp only [hc] at ha; rw [ha]
      exact (field_names_nodup_iff rt.rangeOrder event).mpr
        (hattr q event more hshape hq hclient)

/-- C14, amended, on a store that holds an event with the attributes `Host` and
`.json` besides the event of `web1`, `cpu`: the listing of `web1/cpu` has
distinct names, since the listed event has no such attribute, and so has the
listing of the hosts under `.query/true`, for which the attributes do not
matter. -/
theorem OpenDir_names_nodup_witness :
    (OpenDir sampleRuntime mixedFS "web1/cpu").out
      = .ret ([⟨"Service", S_IFREG⟩, ⟨"Host", S_IFREG⟩, ⟨"Metric", S_IFREG⟩,
          ⟨"Description", S_IFREG⟩, ⟨"State", S_IFREG⟩, ⟨"Time", S_IFREG⟩,
          ⟨"Tags", S_IFREG⟩, ⟨"Ttl", S_IFREG⟩, ⟨"rack", S_IFREG⟩, ⟨".json", S_IFREG⟩], .OK) ∧
    ([DirEntry.mk "Service" S_IFREG, ⟨"Host", S_IFREG⟩, ⟨"Metric", S_IFREG⟩,
          ⟨"Description", S_IFREG⟩, ⟨"State", S_IFREG⟩, ⟨"Time", S_IFREG⟩,
          ⟨"Tags", S_IFREG⟩, ⟨"Ttl", S_IFREG⟩, ⟨"rack", S_IFREG⟩,
          ⟨".json", S_IFREG⟩].map DirEntry.Name).Nodup ∧
    (OpenDir sampleRuntime mixedFS ".query/true").out
      = .ret ([⟨"web1", S_IFDIR⟩], .OK) ∧
    ([DirEntry.mk "web1" S_IFDIR].map DirEntry.Name).Nodup :=
  have hsplit : Split "web1/cpu" PathSeparator = ["web1", "cpu"] := by decide
  have hquery : queryForPath ["web1", "cpu"]
      = .ret "host = \"web1\" and service = \"cpu\"" := by decide
  have hsplit2 : Split ".query/true" PathSeparator = [".query", "true"] := by decide
  ⟨by decide,
    (OpenDir_names_nodup sampleRuntime mixedFS "web1/cpu"
      [⟨"Service", S_IFREG⟩, ⟨"Host", S_IFREG⟩, ⟨"Metric", S_IFREG⟩,
        ⟨"Description", S_IFREG⟩, ⟨"State", S_IFREG⟩, ⟨"Time", S_IFREG⟩,
        ⟨"Tags", S_IFREG⟩, ⟨"Ttl", S_IFREG⟩, ⟨"rack", S_IFREG⟩, ⟨".json", S_IFREG⟩]
      .OK (by decide)).mpr
      ⟨fun hname => absurd hname (by decide),
        fun q event more _ hq hclient key hkey => by
          rw [hsplit, hquery] at hq
          cases hq
          simp only [mixedFS, if_true, Except.ok.injEq, List.cons.injEq] at hclient
          obtain ⟨hev, _⟩ := hclient
          subst hev
          simp only [sampleEvent, StringMap.keys, List.map_cons, List.map_nil,
            List.mem_singleton] at hkey
          subst hkey
          decide⟩,
    by decide,
    (OpenDir_names_nodup sampleRuntime mixedFS ".query/true" [⟨"web1", S_IFDIR⟩]
      .OK (by decide)).mpr
      ⟨fun hname => absurd hname (by decide),
        fun q event more hshape _ _ => by
          rw [hsplit2] at hshape
          rcases hshape with ⟨h, s, hs, hne⟩ | ⟨f, h, s, hs⟩
          · simp only [List.cons.injEq, and_true] at hs
            exact absurd hs.1.symm hne
          · simp at hs⟩⟩

/-! ## Failed queries -/

/-- C15: a failed query is an empty result: `queryRiemann` returns no event when
the client reports an error, and for every path and flags the results of
`OpenDir`, `GetAttr` and `Open` (filters sent included) are the same for a client
`fs` and for a client `fs'` that answers with an empty sequence of events the
filters on which `fs` fails and agrees with `fs` otherwise. -/
theorem failed_query_as_empty (rt : Runtime M T) (fs fs' : RiemannFS M T) (path : String)
    (flags : Nat)
    (h : ∀ q, fs.RiemannClient q = fs'.RiemannClient q ∨
      ((∃ msg, fs.RiemannClient q = .error msg) ∧ fs'.RiemannClient q = .ok [])) :
    (∀ q msg, fs.RiemannClient q = .error msg → queryRiemann fs q = ⟨.ret [], [q]⟩) ∧
    (∀ q, queryRiemann fs q = queryRiemann fs' q) ∧
    OpenDir rt fs path = OpenDir rt fs' path ∧
    GetAttr rt fs path = GetAttr rt fs' path ∧
    Open rt fs path flags = Open rt fs' path flags := by
  have hquery : queryRiemann fs = queryRiemann fs' := by
    funext q
    rcases h q with heq | ⟨⟨msg, hfail⟩, hempty⟩
    · simp [queryRiemann, heq]
    · simp [queryRiemann, hfail, hempty]
  have hevents : getEventsForPath fs = getEventsForPath fs' := by
    funext aryPath
    simp only [getEventsForPath, hquery]
  have hfield : ∀ (query : String) (lambda : Event M T → String),
      fieldForEventFromQuery fs query lambda = fieldForEventFromQuery fs' query lambda := by
    intro query lambda
    simp only [fieldForEventFromQuery, hquery]
  refine ⟨?_, fun q => by rw [hquery], ?_, ?_, ?_⟩
  · intro q msg hfail
    simp [queryRiemann, hfail]
  · simp only [OpenDir, hevents, hfield]
  · simp only [GetAttr, hevents]
  · simp only [Open, hevents]

/-- C15 for a client that always fails and a client that always answers with no
event, on the listing of `web1/cpu` and on the file `web1/cpu/Time`. -/
theorem failed_query_as_empty_witness :
    queryRiemann failingFS "true" = ⟨.ret [], ["true"]⟩ ∧
    OpenDir sampleRuntime failingFS "web1/cpu" = OpenDir sampleRuntime emptyFS "web1/cpu" ∧
    GetAttr sampleRuntime failingFS "web1/cpu/Time"
      = GetAttr sampleRuntime emptyFS "web1/cpu/Time" ∧
    Open sampleRuntime failingFS "web1/cpu/Time" 0
      = ⟨.ret (none, .ENOENT), ["host = \"web1\" and service = \"cpu\""]⟩ ∧
    Open sampleRuntime failingFS "web1/cpu/Time" 0
      = Open sampleRuntime emptyFS "web1/cpu/Time" 0 :=
  have h : ∀ q, failingFS.RiemannClient q = emptyFS.RiemannClient q ∨
      ((∃ msg, failingFS.RiemannClient q = .error msg) ∧ emptyFS.RiemannClient q = .ok []) :=
    fun _ => Or.inr ⟨⟨_, rfl⟩, rfl⟩
  ⟨(failed_query_as_empty sampleRuntime failingFS emptyFS "web1/cpu" 0 h).1 "true" _ rfl,
    (failed_query_as_empty sampleRuntime failingFS emptyFS "web1/cpu" 0 h).2.2.1,
    (failed_query_as_empty sampleRuntime failingFS emptyFS "web1/cpu/Time" 0 h).2.2.2.1,
    by decide,
    (failed_query_as_empty sampleRuntime failingFS emptyFS "web1/cpu/Time" 0 h).2.2.2.2⟩

/-! ## The fields `Tags` and `Time` -/

theorem intercalate_go_append (sep : String) (elems : List String) :
    ∀ acc x : String,
      String.intercalate.go (acc ++ x) sep elems = acc ++ String.intercalate.go x sep elems := by
  induction elems with
  | nil => intro acc x; simp [String.intercalate.go]
  | cons b bs ih =>
    intro acc x
    simp only [String.intercalate.go]
    rw [← ih acc (x ++ sep ++ b)]
    simp only [String.append_assoc]

theorem Join_cons_cons (sep t t' : String) (ts : List String) :
    Join (t :: t' :: ts) sep = t ++ sep ++ Join (t' :: ts) sep := by
  simp only [Join, String.intercalate, String.intercalate.go]
  exact intercalate_go_append sep ts (t ++ sep) t'

/-- A fixed name that is not an attribute key passes the attribute lookup and
the test against `riemann_fields`. -/
theorem fixed_field_lookup (event : Event M T) (field : String)
    (hkey : field ∉ event.Attributes.keys) (hfixed : field ∈ riemann_fields) :
    event.Attributes.get? field = none ∧ InArray riemann_fields field = true := by
  constructor
  · cases hg : event.Attributes.get? field with
    | none => rfl
    | some v =>
      exact absurd ((StringMap.isSome_get?_iff _ _).mp (by simp [hg])) hkey
  · exact (InArray_iff _ _).mpr hfixed

/-- C16: for every event whose Attributes have no key `Tags`, the field `Tags`
reads as the tags, in their order, joined by `, `: nothing for no tag, the tag
itself for one tag, `a, b` for the tags `a`, `b`, and in general the first tag,
the separator, and the joined rest. -/
theorem valueForAttribute_Tags (rt : Runtime M T) (event : Event M T)
    (hkey : "Tags" ∉ event.Attributes.keys) :
    valueForAttribute rt event "Tags" = .ok (Join event.Tags ", ") ∧
    Join [] ", " = "" ∧
    (∀ t : String, Join [t] ", " = t) ∧
    Join ["a", "b"] ", " = "a, b" ∧
    (∀ (t t' : String) (ts : List String),
      Join (t :: t' :: ts) ", " = t ++ ", " ++ Join (t' :: ts) ", ") := by
  obtain ⟨hget, hin⟩ := fixed_field_lookup event "Tags" hkey (by decide)
  refine ⟨?_, rfl, fun t => rfl, by decide, fun t t' ts => Join_cons_cons ", " t t' ts⟩
  simp [valueForAttribute, hget, hin]

/-- C16 on an event with the tags `a`, `b`. -/
theorem valueForAttribute_Tags_witness :
    "Tags" ∉ shadowEvent.Attributes.keys ∧
    valueForAttribute sampleRuntime shadowEvent "Tags" = .ok "a, b" :=
  ⟨by decide, (valueForAttribute_Tags sampleRuntime shadowEvent (by decide)).1⟩

/-! ## Decimal text of an integer -/

theorem digitValue?_digitChar : ∀ k, k < 10 → digitValue? (Nat.digitChar k) = some k := by
  decide

theorem isDigit_digitChar : ∀ k, k < 10 → (Nat.digitChar k).isDigit = true := by
  decide

theorem digitChar_eq_zero : ∀ k, k < 10 → Nat.digitChar k = '0' → k = 0 := by
  decide

theorem foldl_readDigit_toDigitsCore (fuel : Nat) :
    ∀ (n : Nat) (ds : List Char), n < fuel →
      (Nat.toDigitsCore 10 fuel n ds).foldl readDigit (some 0)
        = ds.foldl readDigit (some n) := by
  induction fuel with
  | zero => intro n ds hn; omega
  | succ fuel ih =>
    intro n ds hn
    have hmod : n % 10 < 10 := Nat.mod_lt _ (by decide)
    simp only [Nat.toDigitsCore]
    split_ifs with h0
    · have hlt : n < 10 := by omega
      simp only [List.foldl_cons, readDigit, digitValue?_digitChar _ hmod]
      congr 2
      omega
    · have hdiv : n / 10 < fuel := by omega
      rw [ih (n / 10) _ hdiv]
      simp only [List.foldl_cons, readDigit, digitValue?_digitChar _ hmod]
      congr 2
      omega

theorem mem_toDigitsCore (fuel : Nat) :
    ∀ (n : Nat) (ds : List Char) (c : Char),
      c ∈ Nat.toDigitsCore 10 fuel n ds → c.isDigit = true ∨ c ∈ ds := by
  induction fuel with
  | zero => intro n ds c hc; exact Or.inr (by simpa [Nat.toDigitsCore] using hc)
  | succ fuel ih =>
    intro n ds c hc
    have hmod : n % 10 < 10 := Nat.mod_lt _ (by decide)
    simp only [Nat.toDigitsCore] at hc
    split_ifs at hc with h0
    · rcases List.mem_cons.mp hc with h | h
      · exact Or.inl (h ▸ isDigit_digitChar _ hmod)
      · exact Or.inr h
    · rcases ih _ _ c hc with h | h
      · exact Or.inl h
      · rcases List.mem_cons.mp h with h | h
        · exact Or.inl (h ▸ isDigit_digitChar _ hmod)
        · exact Or.inr h

theorem toDigitsCore_ne_nil (fuel n : Nat) (ds : List Char) (h : fuel ≠ 0 ∨ ds ≠ []) :
    Nat.toDigitsCore 10 fuel n ds ≠ [] := by
  induction fuel generalizing n ds with
  | zero =>
    rcases h with h | h
    · exact absurd rfl h
    · simpa [Nat.toDigitsCore] using h
  | succ fuel ih =>
    simp only [Nat.toDigitsCore]
    split_ifs with h0
    · simp
    · exact ih _ _ (Or.inr (by simp))

theorem head_toDigitsCore (fuel : Nat) :
    ∀ (n : Nat) (ds : List Char), n < fuel → n ≠ 0 →
      (Nat.toDigitsCore 10 fuel n ds).head? ≠ some '0' := by
  induction fuel with
  | zero => intro n ds hn; omega
  | succ fuel ih =>
    intro n ds hn hne
    have hmod : n % 10 < 10 := Nat.mod_lt _ (by decide)
    simp only [Nat.toDigitsCore]
    split_ifs with h0
    · simp only [List.head?_cons, ne_eq, Option.some.injEq]
      intro hz
      have := digitChar_eq_zero _ hmod hz
      omega
    · exact ih _ _ (by omega) h0

/-- The decimal text of a natural number: digits only, at least one, no zero in
front of a number other than 0, and reading it gives the number back. -/
theorem repr_spec (n : Nat) :
    (Nat.repr n).data ≠ [] ∧
    (∀ c ∈ (Nat.repr n).data, c.isDigit = true) ∧
    ((Nat.repr n).data.head? = some '0' → n = 0) ∧
    parseNat? (Nat.repr n).data = some n := by
  have hdata : (Nat.repr n).data = Nat.toDigitsCore 10 (n + 1) n [] := rfl
  have hne : Nat.toDigitsCore 10 (n + 1) n [] ≠ [] :=
    toDigitsCore_ne_nil _ _ _ (Or.inl (by omega))
  rw [hdata]
  refine ⟨hne, ?_, ?_, ?_⟩
  · intro c hc
    rcases mem_toDigitsCore _ _ _ c hc with h | h
    · exact h
    · simp at h
  · intro hz
    by_contra hn
    exact head_toDigitsCore (n + 1) n [] (by omega) hn hz
  · have hval := foldl_readDigit_toDigitsCore (n + 1) n [] (by omega)
    cases hd : Nat.toDigitsCore 10 (n + 1) n [] with
    | nil => exact absurd hd hne
    | cons c cs =>
      rw [hd] at hval
      simpa [parseNat?] using hval

/-- Reading the text of an integer gives the integer back. -/
theorem parseInt?_sprintfD (i : Int) : parseInt? (sprintfD i) = some i := by
  cases i with
  | ofNat m =>
    obtain ⟨hne, hdig, _, hval⟩ := repr_spec m
    simp only [sprintfD, parseInt?]
    cases hd : (Nat.repr m).data with
    | nil => exact absurd hd hne
    | cons c cs =>
      have hc : c ≠ '-' := by
        intro h
        have := hdig c (by rw [hd]; exact List.mem_cons_self _ _)
        rw [h] at this
        exact absurd this (by decide)
      rw [hd] at hval
      simp [hc, hval]
  | negSucc m =>
    obtain ⟨_, _, _, hval⟩ := repr_spec (m + 1)
    have hdata : ("-" ++ Nat.repr (m + 1)).data = '-' :: (Nat.repr (m + 1)).data := by
      simp [String.data_append]
    simp only [sprintfD, parseInt?, hdata, if_true, hval, Option.map_some']
    rfl

/-- C17: for every event whose Attributes have no key `Time`, the field `Time`
reads as the base-10 text of the event's integer time: a `-` in front exactly
for a negative time, then digits only (at least one, no `0` in front of a
number other than 0) whose value is the absolute value of the time; reading the
text as a decimal integer gives the time back; the time 42 reads `42` and the
time 100 reads `100`. -/
theorem valueForAttribute_Time (rt : Runtime M T) (event : Event M T)
    (hkey : "Time" ∉ event.Attributes.keys) :
    valueForAttribute rt event "Time" = .ok (sprintfD event.Time) ∧
    parseInt? (sprintfD event.Time) = some event.Time ∧
    (∃ digits : List Char,
      (sprintfD event.Time).data = (if event.Time < 0 then '-' :: digits else digits) ∧
      digits ≠ [] ∧
      (∀ c ∈ digits, c.isDigit = true) ∧
      (digits.head? = some '0' → event.Time = 0) ∧
      parseNat? digits = some event.Time.natAbs) ∧
    (event.Time = 42 → valueForAttribute rt event "Time" = .ok "42") ∧
    (event.Time = 100 → valueForAttribute rt event "Time" = .ok "100") := by
  obtain ⟨hget, hin⟩ := fixed_field_lookup event "Time" hkey (by decide)
  have hvalue : valueForAttribute rt event "Time" = .ok (sprintfD event.Time) := by
    simp [valueForAttribute, hget, hin]
  refine ⟨hvalue, parseInt?_sprintfD _, ?_, ?_, ?_⟩
  · cases hT : event.Time with
    | ofNat m =>
      obtain ⟨hne, hdig, hzero, hval⟩ := repr_spec m
      have hnonneg : ¬ (Int.ofNat m < 0) := Int.not_lt.mpr (Int.ofNat_nonneg m)
      refine ⟨(Nat.repr m).data, ?_, hne, hdig, ?_, by simpa using hval⟩
      · rw [if_neg hnonneg]
        rfl
      intro hz
      rw [hzero hz]
      rfl
    | negSucc m =>
      obtain ⟨hne, hdig, hzero, hval⟩ := repr_spec (m + 1)
      have hneg : Int.negSucc m < 0 := Int.negSucc_lt_zero m
      refine ⟨(Nat.repr (m + 1)).data, ?_, hne, hdig, ?_, ?_⟩
      · simp [sprintfD, hneg, String.data_append]
      · intro hz
        exact absurd (hzero hz) (by omega)
      · simpa using hval
  · intro h42
    rw [hvalue, h42]
    rfl
  · intro h100
    rw [hvalue, h100]
    rfl

/-- C17 at the scenario (time 100) and on an event with time 42. -/
theorem valueForAttribute_Time_witness :
    ("Time" ∉ sampleEvent.Attributes.keys ∧ "Time" ∉ shadowEvent.Attributes.keys) ∧
    valueForAttribute sampleRuntime sampleEvent "Time" = .ok "100" ∧
    valueForAttribute sampleRuntime shadowEvent "Time" = .ok "42" ∧
    parseInt? "42" = some 42 ∧
    sprintfD (-7) = "-7" :=
  ⟨⟨by decide, by decide⟩,
    (valueForAttribute_Time sampleRuntime sampleEvent (by decide)).2.2.2.2 rfl,
    (valueForAttribute_Time sampleRuntime shadowEvent (by decide)).2.2.2.1 rfl,
    (valueForAttribute_Time sampleRuntime shadowEvent (by decide)).2.1,
    by decide⟩

/-! ## Attributes of directories and totality of `GetAttr` -/

/-- C18: `GetAttr` never panics: for every path and every client it returns
attributes with status OK or nothing with status NotFound; the event and the
last segment it indexes are always there.  When the client returns more than
one event for a file path, `GetAttr` returns NotFound while `Open` on the same
path (read-only) panics. -/
theorem GetAttr_total (rt : Runtime M T) (fs : RiemannFS M T) (path : String) :
    ((∃ attr, (GetAttr rt fs path).out = .ret (some attr, .OK)) ∨
      (GetAttr rt fs path).out = .ret (none, .ENOENT)) ∧
    (∀ segs, nodeForPath path = .ret (S_IFREG, segs) →
      ∃ q field, queryForPath segs = .ret q ∧ idx segs (segs.length - 1) = .ret field ∧
        ∀ first second more, fs.RiemannClient q = .ok (first :: second :: more) →
          GetAttr rt fs path = ⟨.ret (none, .ENOENT), [q]⟩ ∧
          Open rt fs path 0
            = ⟨.panic "Got more then 1 event for query, this should never happen", [q]⟩) := by
  constructor
  · obtain ⟨first, rest, hs⟩ := List.exists_cons_of_ne_nil (Split_ne_nil path PathSeparator)
    obtain ⟨t, ht⟩ : ∃ t, nodeForPath path = .ret (t, first :: rest) :=
      ⟨_, nodeForPath_eq path first rest hs⟩
    by_cases hdir : t = S_IFDIR
    · left
      exact ⟨⟨S_IFDIR ||| 0o755, 0⟩, by simp [GetAttr, ht, hdir]⟩
    · by_cases hreg : t = S_IFREG
      · subst hreg
        obtain ⟨q, field, hq, hne, hlast, _⟩ :=
          file_path_query _ (nodeForPath_file path _ ht).2
        have hget := GetAttr_file rt fs path _ q field ht hq hne hlast
        rw [hget]
        match answered fs q with
        | [] => right; rfl
        | [event] =>
          left
          cases hv : valueForAttribute rt event field with
          | ok value => exact ⟨⟨S_IFREG ||| 0o644, value.utf8ByteSize⟩, by simp [hv]⟩
          | error err => exact ⟨⟨S_IFREG ||| 0o644, 0⟩, by simp [hv]⟩
        | _ :: _ :: _ => right; rfl
      · right
        simp [GetAttr, ht, hdir, hreg]
  · intro segs hnode
    obtain ⟨q, field, hq, hne, hlast, _⟩ := file_path_query _ (nodeForPath_file path _ hnode).2
    refine ⟨q, field, hq, hlast, ?_⟩
    intro first second more hclient
    have ha : answered fs q = first :: second :: more := by simp [answered, hclient]
    have hget := GetAttr_file rt fs path _ q field hnode hq hne hlast
    have hopen := Open_file rt fs path 0 _ q field hnode (by decide) hq hne hlast
    rw [ha] at hget hopen
    exact ⟨hget, hopen⟩

/-- C18 for a client that returns two events for `web1`, `cpu`, and on the
empty path. -/
theorem GetAttr_total_witness :
    GetAttr sampleRuntime duplicateFS "web1/cpu/Time"
      = ⟨.ret (none, .ENOENT), ["host = \"web1\" and service = \"cpu\""]⟩ ∧
    Open sampleRuntime duplicateFS "web1/cpu/Time" 0
      = ⟨.panic "Got more then 1 event for query, this should never happen",
          ["host = \"web1\" and service = \"cpu\""]⟩ ∧
    ((∃ attr, (GetAttr sampleRuntime failingFS "").out = .ret (some attr, .OK)) ∨
      (GetAttr sampleRuntime failingFS "").out = .ret (none, .ENOENT)) :=
  ⟨by decide, by decide, (GetAttr_total sampleRuntime failingFS "").1⟩

/-- C19: for every path classified as a directory, `GetAttr` sends no query and
returns status OK with the mode `S_IFDIR | 0755` (kind directory, permission
bits 0755) and size 0, so the result is the same for any two clients. -/
theorem GetAttr_directory (rt : Runtime M T) (fs fs' : RiemannFS M T) (path : String)
    (segs : List String) (hnode : nodeForPath path = .ret (S_IFDIR, segs)) :
    GetAttr rt fs path = ⟨.ret (some ⟨S_IFDIR ||| 0o755, 0⟩, .OK), []⟩ ∧
    GetAttr rt fs path = GetAttr rt fs' path ∧
    (S_IFDIR ||| 0o755) &&& 0o170000 = S_IFDIR ∧
    (S_IFDIR ||| 0o755) &&& 0o7777 = 0o755 := by
  have hboth : ∀ client : RiemannFS M T,
      GetAttr rt client path = ⟨.ret (some ⟨S_IFDIR ||| 0o755, 0⟩, .OK), []⟩ := by
    intro client
    simp [GetAttr, hnode]
  exact ⟨hboth fs, by rw [hboth fs, hboth fs'], by decide, by decide⟩

/-- C19 at the host directory `nohost`, which no event of the store matches:
the same attributes against the sample store and against a failing client. -/
theorem GetAttr_directory_witness :
    nodeForPath "nohost" = .ret (S_IFDIR, ["nohost"]) ∧
    GetAttr sampleRuntime sampleFS "nohost" = ⟨.ret (some ⟨0o40755, 0⟩, .OK), []⟩ ∧
    GetAttr sampleRuntime sampleFS "nohost" = GetAttr sampleRuntime failingFS "nohost" :=
  ⟨by decide,
    (GetAttr_directory sampleRuntime sampleFS failingFS "nohost" ["nohost"] (by decide)).1,
    (GetAttr_directory sampleRuntime sampleFS failingFS "nohost" ["nohost"] (by decide)).2.1⟩

/-! ## Injectivity of the filter of a plain path -/

/-- Two texts that agree up to and after the first occurrence of a character
have the same part before it and the same part after it. -/
theorem eq_of_append_cons_eq (q : Char) :
    ∀ (a b x y : List Char), q ∉ a → q ∉ b → a ++ q :: x = b ++ q :: y → a = b ∧ x = y := by
  intro a
  induction a with
  | nil =>
    intro b x y _ hb h
    cases b with
    | nil => simpa using h
    | cons d b =>
      simp only [List.nil_append, List.cons_append, List.cons.injEq] at h
      exact absurd (h.1 ▸ List.mem_cons_self _ _) hb
  | cons c a ih =>
    intro b x y ha hb h
    cases b with
    | nil =>
      simp only [List.nil_append, List.cons_append, List.cons.injEq] at h
      exact absurd (h.1 ▸ List.mem_cons_self _ _) ha
    | cons d b =>
      simp only [List.cons_append, List.cons.injEq] at h
      obtain ⟨hab, hxy⟩ := ih b x y (fun hm => ha (List.mem_cons_of_mem _ hm))
        (fun hm => hb (List.mem_cons_of_mem _ hm)) h.2
      exact ⟨by rw [h.1, hab], hxy⟩

theorem plain_filter_data (h s : String) :
    ("host = \"" ++ h ++ "\" and service = \"" ++ s ++ "\"").data
      = "host = \"".data ++ (h.data ++ '"' :: (" and service = \"".data ++ (s.data ++ ['"']))) := by
  simp only [String.data_append, List.append_assoc]
  rfl

theorem plain_filter_injective (h s h' s' : String) (hq : '"' ∉ h.data) (hq' : '"' ∉ h'.data)
    (heq : "host = \"" ++ h ++ "\" and service = \"" ++ s ++ "\""
      = "host = \"" ++ h' ++ "\" and service = \"" ++ s' ++ "\"") :
    h = h' ∧ s = s' := by
  have hd := congrArg String.data heq
  rw [plain_filter_data, plain_filter_data] at hd
  have h1 := List.append_cancel_left hd
  obtain ⟨hh, hrest⟩ := eq_of_append_cons_eq '"' _ _ _ _ hq hq' h1
  have h2 := List.append_cancel_left hrest
  have h3 := List.append_cancel_right h2
  exact ⟨String.ext hh, String.ext h3⟩

theorem plain_filter_has_quote (h s : String) :
    '"' ∈ ("host = \"" ++ h ++ "\" and service = \"" ++ s ++ "\"").data := by
  rw [plain_filter_data]
  simp

/-- C20: `queryForPath` is not injective on plain paths: the pairs
(`a" and service = "b`, `c`) and (`a`, `b" and service = "c`), whose segments
contain no path separator and are not `.query`, differ and give the same
filter; on hosts and services without a double quote, `queryForPath` on `[h, s]`
is injective. -/
theorem queryForPath_plain_injectivity :
    (∃ h1 s1 h2 s2 : String,
      (h1, s1) ≠ (h2, s2) ∧
      PathSeparator ∉ h1.data ∧ PathSeparator ∉ s1.data ∧
      PathSeparator ∉ h2.data ∧ PathSeparator ∉ s2.data ∧
      h1 ≠ ".query" ∧ h2 ≠ ".query" ∧
      h1 = "a\" and service = \"b" ∧ s1 = "c" ∧ h2 = "a" ∧ s2 = "b\" and service = \"c" ∧
      queryForPath [h1, s1] = .ret "host = \"a\" and service = \"b\" and service = \"c\"" ∧
      queryForPath [h1, s1] = queryForPath [h2, s2]) ∧
    (∀ h s h' s' : String,
      '"' ∉ h.data → '"' ∉ s.data → '"' ∉ h'.data → '"' ∉ s'.data →
      queryForPath [h, s] = queryForPath [h', s'] → h = h' ∧ s = s') := by
  constructor
  · exact ⟨"a\" and service = \"b", "c", "a", "b\" and service = \"c",
      by decide, by decide, by decide, by decide, by decide, by decide, by decide,
      rfl, rfl, rfl, rfl, by decide, by decide⟩
  · intro h s h' s' hq hs hq' hs' heq
    have hplain : ∀ a b : String, a ≠ ".query" →
        queryForPath [a, b] = .ret ("host = \"" ++ a ++ "\" and service = \"" ++ b ++ "\"") := by
      intro a b ha
      simp [queryForPath, ha]
    have hadv : ∀ b : String, queryForPath [".query", b] = .ret b := by
      intro b
      simp [queryForPath]
    by_cases h1 : h = ".query"
    · by_cases h2 : h' = ".query"
      · subst h1 h2
        rw [hadv, hadv] at heq
        exact ⟨rfl, by simpa using heq⟩
      · subst h1
        rw [hadv, hplain h' s' h2] at heq
        have hs2 : s = "host = \"" ++ h' ++ "\" and service = \"" ++ s' ++ "\"" := by
          simpa using heq
        exact absurd (hs2 ▸ plain_filter_has_quote h' s') hs
    · by_cases h2 : h' = ".query"
      · subst h2
        rw [hplain h s h1, hadv] at heq
        have hs2 : "host = \"" ++ h ++ "\" and service = \"" ++ s ++ "\"" = s' := by
          simpa using heq
        exact absurd (hs2 ▸ plain_filter_has_quote h s) hs'
      · rw [hplain h s h1, hplain h' s' h2] at heq
        exact plain_filter_injective h s h' s' hq hq' (by simpa using heq)

end Riemann
